import Mathlib

/-!
# Verification of the `workgraph` library (apparentlymart/go-workgraph)

Shallow embedding of the request/worker bipartite graph of the `workgraph`
package, together with its self-dependency detector, resolution protocol,
drop cleanup and the `Once` utility built on top of them.

## Modelling conventions

* Workers and requests are identified by allocation indices (`Nat`), mirroring
  pointer identity of `*workerInner` / `*requestInner`.  `RequestID` values
  (weak pointers used only for identity) are modelled by the request's index.
* The payload type erasure (`value any` in Go, where a nil interface marks a
  usage-fault resolution and a value that erases to a nil interface is
  rejected by `newExplicitResult`) is modelled by `Option V`: `none` is the
  nil interface.
* Go's `error` values surfaced by the package are modelled by `WGError E`:
  either a caller-supplied error (`user`), `ErrSelfDependency` with its
  `RequestIDs` list, or `ErrUnresolved` with its `RequestID`.
* Each exported operation is modelled as one atomic transition on a global
  state `GState` (sequentially consistent interleaving at operation
  granularity).  A worker blocked inside `Await` is represented by its
  `awaiting` field being set; the wake-up after `cond.Broadcast` is a separate
  transition (`awaitWake`).
* Go panics are modelled with `Except String` (for `resolveExplicit`) or a
  `panicked` constructor (for `Await`).
* The self-dependency walk of `detectSelfDependency` is a fueled recursion;
  `none` marks fuel exhaustion.  The termination theorem shows fuel
  `blockedCount + 1` suffices on reachable states.
* The source's `currentReq == nil` break inside `detectSelfDependency` is
  unreachable (`currentReq` starts non-nil and is only ever assigned the
  non-nil `nextReq`), so the model keeps `currentReq : Nat`.
-/

set_option autoImplicit false

/-- Errors surfaced through the `(value, error)` pairs of the package:
a caller-supplied error, `ErrSelfDependency` (with its `RequestIDs`),
or `ErrUnresolved` (with its `RequestID`).  Request identifiers are the
allocation indices of the requests (pointer identity of the weak pointers). -/
inductive WGError (E : Type) where
  | user : E → WGError E
  | selfDependency : List Nat → WGError E
  | unresolved : Nat → WGError E
deriving DecidableEq

/-- The `requestResult` stored in a request's resolution slot: `value` is the
type-erased payload (`none` models the nil interface marking a usage fault),
`err` the accompanying error. -/
structure RequestResult (V E : Type) where
  value : Option V
  err : Option (WGError E)
deriving DecidableEq

/-- `requestResult.IsExplicit`: explicit resolutions always carry a non-nil
value. -/
def RequestResult.IsExplicit {V E : Type} (rr : RequestResult V E) : Bool :=
  rr.value.isSome

/-- `newUsageFaultResult`: a nil value marks the usage-fault resolution. -/
def newUsageFaultResult {V E : Type} (e : WGError E) : RequestResult V E :=
  RequestResult.mk none (some e)

/-- Global state of the worker/request graph.  Fields of allocated nodes:

* `responsible r` — the `requestInner.responsible` atomic pointer of request `r`;
* `result r` — the `requestInner.result` slot (`none` = unresolved);
* `awaiting w` — the `workerInner.awaiting` atomic pointer of worker `w`;
* `responsibleFor w` — the `workerInner.responsibleFor` set of worker `w`.

Allocation is by bumping `numWorkers` / `numReqs`; fields of unallocated
indices keep their initial defaults. -/
structure GState (V E : Type) where
  numWorkers : Nat
  numReqs : Nat
  responsible : Nat → Nat
  result : Nat → Option (RequestResult V E)
  awaiting : Nat → Option Nat
  responsibleFor : Nat → List Nat

variable {V E : Type}

/-- The empty graph: no workers, no requests. -/
def GState.init : GState V E :=
  GState.mk 0 0 (fun _ => 0) (fun _ => none) (fun _ => none) (fun _ => [])

/-- Store into a worker's `awaiting` atomic pointer. -/
def setAwaiting (s : GState V E) (w : Nat) (a : Option Nat) : GState V E :=
  GState.mk s.numWorkers s.numReqs s.responsible s.result
    (fun x => if x = w then a else s.awaiting x) s.responsibleFor

/-- Store into a request's `result` slot. -/
def setResult (s : GState V E) (r : Nat) (res : Option (RequestResult V E)) :
    GState V E :=
  GState.mk s.numWorkers s.numReqs s.responsible
    (fun x => if x = r then res else s.result x) s.awaiting s.responsibleFor

/-- `requestInner.setResponsibleWorker`: re-point a request's `responsible`
atomic pointer. -/
def setResponsibleWorker (s : GState V E) (r : Nat) (w : Nat) : GState V E :=
  GState.mk s.numWorkers s.numReqs
    (fun x => if x = r then w else s.responsible x) s.result s.awaiting
    s.responsibleFor

/-- `newWorkerInner`: allocate a fresh worker node, initially awaiting nothing
and with an empty `responsibleFor` map.  Returns the new state and the new
worker's index. -/
def newWorkerInner (s : GState V E) : GState V E × Nat :=
  (GState.mk (s.numWorkers + 1) s.numReqs s.responsible s.result
      (fun x => if x = s.numWorkers then none else s.awaiting x)
      (fun x => if x = s.numWorkers then [] else s.responsibleFor x),
   s.numWorkers)

/-- The delegation loop of `NewWorker`: `inner.setResponsibleWorker(newInner)`
for every resolver contained in the delegated containers. -/
def delegateTo (s : GState V E) (w : Nat) (rs : List Nat) : GState V E :=
  rs.foldl (fun t r => setResponsibleWorker t r w) s

/-- `NewWorker` as written in the source: allocate a fresh inner worker and
re-point the `responsible` pointer of every delegated request to it.  (The
source does not insert the delegated requests into the new worker's
`responsibleFor` map.)  Returns the new state and the new worker's index. -/
def NewWorker (s : GState V E) (delegatedResults : List Nat) :
    GState V E × Nat :=
  let p := newWorkerInner s
  (delegateTo p.1 p.2 delegatedResults, p.2)

/-- `newRequestInner` / `NewRequest`: allocate a fresh request node with the
given responsible worker and an unset resolution.  (The source does not add
the new request to the responsible worker's `responsibleFor` map.)  Returns
the new state and the new request's index. -/
def newRequestInner (s : GState V E) (responsibleWorker : Nat) :
    GState V E × Nat :=
  (GState.mk s.numWorkers (s.numReqs + 1)
      (fun x => if x = s.numReqs then responsibleWorker else s.responsible x)
      (fun x => if x = s.numReqs then none else s.result x)
      s.awaiting s.responsibleFor,
   s.numReqs)

/-- `requestInner.resolveUsageFault`: if the resolution slot is unset, store a
usage-fault result; otherwise leave the existing resolution alone. -/
def resolveUsageFault (s : GState V E) (r : Nat) (e : WGError E) : GState V E :=
  match s.result r with
  | some _ => s
  | none => setResult s r (some (newUsageFaultResult e))

/-- `requestInner.resolveExplicit`: panics (modelled by `Except.error`) if the
resolving worker is not the stored responsible worker, or if an explicit
resolution is already present; silently ignores the call if a usage-fault
resolution is present; panics if the value erases to a nil interface
(`newExplicitResult`); otherwise stores the explicit result. -/
def resolveExplicit (s : GState V E) (resolvingWorker : Nat) (r : Nat)
    (val : Option V) (err : Option (WGError E)) : Except String (GState V E) :=
  if resolvingWorker ≠ s.responsible r then
    .error "request was resolved by a worker that was not responsible"
  else
    match s.result r with
    | some res =>
        if res.IsExplicit then .error "request resolved multiple times"
        else .ok s
    | none =>
        match val with
        | none => .error "explicit resolution with nil value"
        | some v => .ok (setResult s r (some (RequestResult.mk (some v) err)))

/-- Fold `resolveUsageFault` over a list of requests, with a per-request
error.  `handleDropped` and the cycle-failure path of `await` are both folds
of this shape. -/
def faultEach (s : GState V E) (f : Nat → WGError E) (l : List Nat) :
    GState V E :=
  l.foldl (fun t q => resolveUsageFault t q (f q)) s

/-- `workerInner.handleDropped`: force a usage-fault resolution carrying
`ErrUnresolved` (with the request's own id) onto every request in the
worker's `responsibleFor` map. -/
def handleDropped (s : GState V E) (w : Nat) : GState V E :=
  (s.responsibleFor w).foldl
    (fun t r => resolveUsageFault t r (WGError.unresolved r)) s

/-- The loop body of `detectSelfDependency`, as a fueled recursion over the
chain of `awaiting` / `responsible` atomic pointers.  Arguments mirror the Go
locals: `requestingWorker`, `collectFailedReqs`, then fuel, `currentWorker`,
`currentReq`, and the accumulated `failedReqs`.  Returns `none` on fuel
exhaustion. -/
def detectLoop (s : GState V E) (requestingWorker : Nat)
    (collectFailedReqs : Bool) :
    Nat → Nat → Nat → List Nat → Option (Bool × List Nat)
  | 0, _, _, _ => none
  | fuel + 1, currentWorker, currentReq, failedReqs =>
      if currentWorker = requestingWorker then some (true, failedReqs)
      else
        match s.awaiting currentWorker with
        | none => some (false, failedReqs)
        | some nextReq =>
            if s.responsible currentReq ≠ currentWorker then
              some (false, failedReqs)
            else
              detectLoop s requestingWorker collectFailedReqs fuel
                (s.responsible nextReq) nextReq
                (if collectFailedReqs then failedReqs ++ [nextReq]
                 else failedReqs)

/-- `detectSelfDependency`: walk the worker-and-request graph starting from
`currentReq`, reporting whether the chain leads back to `requestingWorker`
and (in collect mode) which request nodes were visited. -/
def detectSelfDependency (s : GState V E) (currentReq requestingWorker : Nat)
    (collectFailedReqs : Bool) (fuel : Nat) : Option (Bool × List Nat) :=
  detectLoop s requestingWorker collectFailedReqs fuel
    (s.responsible currentReq) currentReq
    (if collectFailedReqs then [currentReq] else [])

/-- Outcome of an `Await` transition. -/
inductive AwaitOut (V E : Type) where
  | panicked : String → AwaitOut V E
  | fuelOut : AwaitOut V E
  | returned : RequestResult V E → GState V E → AwaitOut V E
  | blocked : GState V E → AwaitOut V E

/-- The result returned by an `AwaitOut`, if any. -/
def AwaitOut.resOf : AwaitOut V E → Option (RequestResult V E)
  | .returned res _ => some res
  | _ => none

/-- The post-state of an `AwaitOut`, if any. -/
def AwaitOut.stateOf : AwaitOut V E → Option (GState V E)
  | .returned _ s => some s
  | .blocked s => some s
  | _ => none

/-- `requestInner.await`, the slow path: claim the worker's `awaiting` slot,
run the self-dependency walk, on a cycle rerun it in collect mode, fault every
collected request with one shared `ErrSelfDependency`, and finally either
return the (now present) resolution — releasing the `awaiting` slot — or
block on the condition variable. -/
def awaitSlow (s : GState V E) (requestingWorker r fuel : Nat) : AwaitOut V E :=
  if (s.awaiting requestingWorker).isSome then
    .panicked "worker awaits multiple promises"
  else
    match detectSelfDependency (setAwaiting s requestingWorker (some r)) r
        requestingWorker false fuel with
    | none => .fuelOut
    | some (false, _) => .blocked (setAwaiting s requestingWorker (some r))
    | some (true, _) =>
        match detectSelfDependency (setAwaiting s requestingWorker (some r)) r
            requestingWorker true fuel with
        | none => .fuelOut
        | some p =>
            match (faultEach (setAwaiting s requestingWorker (some r))
                (fun _ => WGError.selfDependency p.2) p.2).result r with
            | some res =>
                .returned res
                  (setAwaiting
                    (faultEach (setAwaiting s requestingWorker (some r))
                      (fun _ => WGError.selfDependency p.2) p.2)
                    requestingWorker none)
            | none =>
                .blocked
                  (faultEach (setAwaiting s requestingWorker (some r))
                    (fun _ => WGError.selfDependency p.2) p.2)

/-- `Promise.Await`: panic if the worker is already awaiting a promise,
return immediately if the request is already resolved, otherwise run the
slow path. -/
def promiseAwait (s : GState V E) (requestingWorker r fuel : Nat) :
    AwaitOut V E :=
  if (s.awaiting requestingWorker).isSome then
    .panicked "worker awaits multiple promises"
  else
    match s.result r with
    | some res => .returned res s
    | none => awaitSlow s requestingWorker r fuel

/-- Wake-up of a blocked `Await`: the condition-variable loop observes the
resolution and returns it, releasing the worker's `awaiting` slot (the
deferred compare-and-swap back to nil). -/
def awaitWake (s : GState V E) (requestingWorker r : Nat) : AwaitOut V E :=
  match s.result r with
  | some res =>
      if s.awaiting requestingWorker = some r then
        .returned res (setAwaiting s requestingWorker none)
      else .panicked "worker awaits multiple promises"
  | none => .blocked s

/-! ## The worker chain

The self-dependency walk follows the functional graph on workers induced by
one `awaiting` hop followed by one `responsible` hop.  `iterNext s n w`
iterates that step `n` times from worker `w`; `none` means the chain has
already ended (some worker along the way awaits nothing). -/

/-- One hop of the worker chain: the worker responsible for the request that
`w` is awaiting, if any. -/
def stepN (s : GState V E) (w : Nat) : Option Nat :=
  match s.awaiting w with
  | none => none
  | some r => some (s.responsible r)

/-- Iterate the worker chain `n` hops from `w`. -/
def iterNext (s : GState V E) : Nat → Nat → Option Nat
  | 0, w => some w
  | n + 1, w =>
      match s.awaiting w with
      | none => none
      | some r => iterNext s n (s.responsible r)

/-- The number of workers whose `awaiting` pointer is currently set — the
workers blocked in `Await`. -/
def blockedCount (s : GState V E) : Nat :=
  ((Finset.range s.numWorkers).filter (fun w => (s.awaiting w).isSome)).card

/-- Well-formedness of a graph state: responsible workers of allocated
requests are allocated, awaiting workers are allocated, and awaited requests
are allocated. -/
structure WF (s : GState V E) : Prop where
  responsible_lt : ∀ r, r < s.numReqs → s.responsible r < s.numWorkers
  awaiting_lt : ∀ w, (s.awaiting w).isSome → w < s.numWorkers
  awaiting_req_lt : ∀ w r, s.awaiting w = some r → r < s.numReqs

/-- Every worker's chain eventually ends. -/
def Term (s : GState V E) : Prop :=
  ∀ w, ∃ n, iterNext s n w = none

/-- The state invariant maintained by all operations. -/
def GInv (s : GState V E) : Prop :=
  WF s ∧ Term s

/-- Chain iteration that also stops at a designated worker, mirroring the
walk's cycle check. -/
def iterStop (s : GState V E) (stop : Nat) : Nat → Nat → Option Nat
  | 0, w => some w
  | n + 1, w =>
      if w = stop then none
      else
        match s.awaiting w with
        | none => none
        | some r => iterStop s stop n (s.responsible r)

/-! ## The operational step relation and reachable states

One step is one atomic operation of the library: allocating a worker
(`NewWorker`, including bulk delegation), opening a request (`NewRequest`),
an `Await` that blocks, an `Await` that returns (fast path or cycle
failure), the wake-up of a blocked `Await`, a non-panicking explicit
resolution (`Resolver.Report` and friends), or the cleanup hook of a dropped
worker handle. -/

inductive GStep : GState V E → GState V E → Prop where
  | newWorker (s : GState V E) (delegated : List Nat)
      (h : ∀ r ∈ delegated, r < s.numReqs) :
      GStep s (NewWorker s delegated).1
  | newRequest (s : GState V E) (w : Nat) (h : w < s.numWorkers) :
      GStep s (newRequestInner s w).1
  | awaitBlock (s s1 : GState V E) (W R : Nat)
      (hW : W < s.numWorkers) (hR : R < s.numReqs)
      (h : promiseAwait s W R (s.numWorkers + 1) = .blocked s1) :
      GStep s s1
  | awaitReturn (s s1 : GState V E) (W R : Nat) (res : RequestResult V E)
      (hW : W < s.numWorkers) (hR : R < s.numReqs)
      (h : promiseAwait s W R (s.numWorkers + 1) = .returned res s1) :
      GStep s s1
  | wake (s s1 : GState V E) (W R : Nat) (res : RequestResult V E)
      (h : awaitWake s W R = .returned res s1) : GStep s s1
  | report (s s1 : GState V E) (w r : Nat) (v : Option V)
      (e : Option (WGError E)) (h : resolveExplicit s w r v e = .ok s1) :
      GStep s s1
  | drop (s : GState V E) (w : Nat) : GStep s (handleDropped s w)

/-- `s2` is a possible later state of `s`. -/
def Evolves (s s2 : GState V E) : Prop :=
  Relation.ReflTransGen GStep s s2

/-- States reachable from the empty graph. -/
def Reach (s : GState V E) : Prop :=
  Evolves GState.init s

/-! ## Concrete example states

Recorded replays of short public-API interaction sequences, used to
instantiate the theorems below on concrete inputs. -/

/-- `main = NewWorker(); NewRequest(main)`: worker `0` responsible for the
unresolved request `0`. -/
def exOneReq : GState Nat Nat :=
  (newRequestInner (NewWorker GState.init []).1 0).1

/-- `exOneReq` after `Await(main)` hit the direct self-dependency: request `0`
holds the usage-fault `ErrSelfDependency [0]` and worker `0` is idle again. -/
def exFaulted : GState Nat Nat :=
  setAwaiting
    (faultEach (setAwaiting exOneReq 0 (some 0))
      (fun _ => WGError.selfDependency [0]) [0]) 0 none

/-- `exOneReq` after `Report(main, 5, nil)`. -/
def exReported : GState Nat Nat :=
  setResult exOneReq 0 (some (RequestResult.mk (some 5) none))

/-- Three idle workers and three unresolved requests: request `0` responsible
to worker `2`, request `1` to worker `0`, request `2` to worker `1`. -/
def exThree : GState Nat Nat :=
  (newRequestInner
    (newRequestInner
      (newRequestInner
        (NewWorker (NewWorker (NewWorker GState.init []).1 []).1 []).1
        2).1 0).1 1).1

/-- `exThree` after worker `1` blocked awaiting request `0`. -/
def exThreeB1 : GState Nat Nat := setAwaiting exThree 1 (some 0)

/-- `exThreeB1` after worker `2` reported `(7, nil)` for request `0` (worker
`1` has not woken yet). -/
def exThreeRep : GState Nat Nat :=
  setResult exThreeB1 0 (some (RequestResult.mk (some 7) none))

/-- `exThreeRep` after worker `2` blocked awaiting request `1`. -/
def exThreeB2 : GState Nat Nat := setAwaiting exThreeRep 2 (some 1)

/-- The state returned by worker `0`'s cycle-detecting `Await` of request `2`
in `exThreeB2`: requests `2` and `1` are faulted, request `0` keeps its
explicit resolution. -/
def exThreePost : GState Nat Nat :=
  setAwaiting
    (faultEach (setAwaiting exThreeB2 0 (some 2))
      (fun _ => WGError.selfDependency [2, 0, 1]) [2, 0, 1]) 0 none

/-! ## Resolution sequences (for the monotonicity property) -/

/-- One call against a single request's resolution slot: an explicit
`Report` by some worker (a panic aborts the process and leaves the slot
as it was) or an internal usage-fault resolution. -/
inductive ResOp (V E : Type) where
  | rep : Nat → Option V → Option (WGError E) → ResOp V E
  | fault : WGError E → ResOp V E

/-- Apply one resolution call to request `r`. -/
def applyResOp (r : Nat) (s : GState V E) : ResOp V E → GState V E
  | .rep w v e => ((resolveExplicit s w r v e).toOption).getD s
  | .fault e => resolveUsageFault s r e

/-- Run a sequence of resolution calls against request `r`. -/
def runResOps (r : Nat) (s : GState V E) (l : List (ResOp V E)) : GState V E :=
  l.foldl (applyResOp r) s

/-! ## The `Once` utility

`Once.Do` elects a first caller under the `Once` mutex: the first call opens
the inner request, spawns a fresh worker owning its resolver, and stores the
promise; every call then awaits the promise.  The spawned task runs `f` once
and reports its outcome.  The system below records, on top of the graph
state, the `Once` fields (`promise`, the not-yet-run spawned task, and the
number of invocations of `f`) and the outcomes returned by completed `Do`
calls. -/

/-- The fields of a `Once`: the stored promise (request index), the spawned
task that has not yet run (its worker index), and how many times `f` ran. -/
structure OnceState where
  promise : Option Nat
  pending : Option Nat
  invocations : Nat

/-- A `Once` together with the graph it lives in and the outcomes returned
by completed `Do` calls. -/
structure OnceSys (V E : Type) where
  g : GState V E
  o : OnceState
  returns : List (RequestResult V E)

/-- One atomic event of the `Once` system:

* `graph` — any library operation elsewhere in the graph; it may not
  re-point the responsibility of the `Once`'s own request, whose resolver is
  captured exclusively by the spawned task's closure;
* `doEnterFirst` — the mutex section of the first `Do` call: open the
  request under the caller, spawn a fresh worker delegated its resolver,
  store the promise;
* `doEnterLater` — the mutex section of any later `Do` call: a no-op;
* `taskRun` — the spawned task runs `f` (outcome `(v, e)`) and reports it
  through the captured resolver (a panic leaves the graph unchanged);
* `doReturn` — a `Do` call's `Await` observes the request resolved and
  returns that outcome. -/
inductive OnceStep : OnceSys V E → OnceSys V E → Prop where
  | graph (σ : OnceSys V E) (g2 : GState V E) (hstep : GStep σ.g g2)
      (hresp : ∀ r, σ.o.promise = some r →
        g2.responsible r = σ.g.responsible r) :
      OnceStep σ (OnceSys.mk g2 σ.o σ.returns)
  | doEnterFirst (σ : OnceSys V E) (caller : Nat) (h : σ.o.promise = none) :
      OnceStep σ (OnceSys.mk
        (NewWorker (newRequestInner σ.g caller).1
          [(newRequestInner σ.g caller).2]).1
        (OnceState.mk (some (newRequestInner σ.g caller).2)
          (some (NewWorker (newRequestInner σ.g caller).1
            [(newRequestInner σ.g caller).2]).2)
          σ.o.invocations)
        σ.returns)
  | doEnterLater (σ : OnceSys V E) (h : σ.o.promise.isSome) : OnceStep σ σ
  | taskRun (σ : OnceSys V E) (w : Nat) (v : Option V)
      (e : Option (WGError E)) (r : Nat)
      (hp : σ.o.pending = some w) (hr : σ.o.promise = some r) :
      OnceStep σ (OnceSys.mk
        ((resolveExplicit σ.g w r v e).toOption.getD σ.g)
        (OnceState.mk σ.o.promise none (σ.o.invocations + 1))
        σ.returns)
  | doReturn (σ : OnceSys V E) (caller r : Nat) (x : RequestResult V E)
      (hr : σ.o.promise = some r) (hx : σ.g.result r = some x)
      (hc : σ.g.awaiting caller = none) :
      OnceStep σ (OnceSys.mk σ.g σ.o (x :: σ.returns))

/-- States of the `Once` system reachable from a fresh `Once` over an
arbitrary starting graph `g0`. -/
def OnceReach (g0 : GState V E) (σ : OnceSys V E) : Prop :=
  Relation.ReflTransGen OnceStep (OnceSys.mk g0 (OnceState.mk none none 0) []) σ

/-- The `Once` invariant: at most one election, every recorded `Do` outcome
is the current stored resolution of the single underlying request, and the
pending task's worker is the request's responsible worker. -/
def OnceInv (σ : OnceSys V E) : Prop :=
  σ.o.invocations + (if σ.o.pending.isSome then 1 else 0) ≤
      (if σ.o.promise.isSome then 1 else 0) ∧
    (match σ.o.promise with
     | none => σ.returns = []
     | some r => r < σ.g.numReqs ∧
         (∀ x ∈ σ.returns, σ.g.result r = some x) ∧
         (∀ w, σ.o.pending = some w → σ.g.responsible r = w))

/-- The example graph a fresh `Once` lives in: a single idle worker `0`. -/
def onceG0 : GState Nat Nat := (NewWorker GState.init []).1

/-- The fresh `Once` over `onceG0`. -/
def onceSys0 : OnceSys Nat Nat :=
  OnceSys.mk onceG0 (OnceState.mk none none 0) []

/-- `onceSys0` after worker `0`'s first `Do` call elected itself: request `0`
opened, worker `1` spawned and responsible for it. -/
def onceSys1 : OnceSys Nat Nat :=
  OnceSys.mk
    (NewWorker (newRequestInner onceG0 0).1 [(newRequestInner onceG0 0).2]).1
    (OnceState.mk (some (newRequestInner onceG0 0).2)
      (some (NewWorker (newRequestInner onceG0 0).1
        [(newRequestInner onceG0 0).2]).2) 0)
    []

/-- `onceSys1` after the spawned task ran `f` (returning `(3, nil)`) and
reported it. -/
def onceSys2 : OnceSys Nat Nat :=
  OnceSys.mk ((resolveExplicit onceSys1.g 1 0 (some 3) none).toOption.getD
      onceSys1.g)
    (OnceState.mk onceSys1.o.promise none (onceSys1.o.invocations + 1))
    onceSys1.returns

/-- `onceSys2` after worker `0`'s `Do` call observed the resolution and
returned it. -/
def onceSys3 : OnceSys Nat Nat :=
  OnceSys.mk onceSys2.g onceSys2.o
    (RequestResult.mk (some 3) none :: onceSys2.returns)

/-! ## Basic lemmas about the state operations -/

@[simp] theorem setAwaiting_numWorkers (s : GState V E) (w : Nat)
    (a : Option Nat) : (setAwaiting s w a).numWorkers = s.numWorkers := rfl

@[simp] theorem setAwaiting_numReqs (s : GState V E) (w : Nat)
    (a : Option Nat) : (setAwaiting s w a).numReqs = s.numReqs := rfl

@[simp] theorem setAwaiting_responsible (s : GState V E) (w : Nat)
    (a : Option Nat) : (setAwaiting s w a).responsible = s.responsible := rfl

@[simp] theorem setAwaiting_result (s : GState V E) (w : Nat)
    (a : Option Nat) : (setAwaiting s w a).result = s.result := rfl

@[simp] theorem setAwaiting_responsibleFor (s : GState V E) (w : Nat)
    (a : Option Nat) :
    (setAwaiting s w a).responsibleFor = s.responsibleFor := rfl

theorem setAwaiting_awaiting (s : GState V E) (w : Nat) (a : Option Nat)
    (x : Nat) :
    (setAwaiting s w a).awaiting x = if x = w then a else s.awaiting x := rfl

@[simp] theorem setAwaiting_awaiting_self (s : GState V E) (w : Nat)
    (a : Option Nat) : (setAwaiting s w a).awaiting w = a := by
  simp [setAwaiting_awaiting]

theorem setAwaiting_awaiting_ne (s : GState V E) (w : Nat) (a : Option Nat)
    {x : Nat} (h : x ≠ w) : (setAwaiting s w a).awaiting x = s.awaiting x := by
  simp [setAwaiting_awaiting, h]

@[simp] theorem setResult_numWorkers (s : GState V E) (r : Nat)
    (res : Option (RequestResult V E)) :
    (setResult s r res).numWorkers = s.numWorkers := rfl

@[simp] theorem setResult_numReqs (s : GState V E) (r : Nat)
    (res : Option (RequestResult V E)) :
    (setResult s r res).numReqs = s.numReqs := rfl

@[simp] theorem setResult_responsible (s : GState V E) (r : Nat)
    (res : Option (RequestResult V E)) :
    (setResult s r res).responsible = s.responsible := rfl

@[simp] theorem setResult_awaiting (s : GState V E) (r : Nat)
    (res : Option (RequestResult V E)) :
    (setResult s r res).awaiting = s.awaiting := rfl

@[simp] theorem setResult_responsibleFor (s : GState V E) (r : Nat)
    (res : Option (RequestResult V E)) :
    (setResult s r res).responsibleFor = s.responsibleFor := rfl

theorem setResult_result (s : GState V E) (r : Nat)
    (res : Option (RequestResult V E)) (x : Nat) :
    (setResult s r res).result x = if x = r then res else s.result x := rfl

@[simp] theorem setResult_result_self (s : GState V E) (r : Nat)
    (res : Option (RequestResult V E)) : (setResult s r res).result r = res := by
  simp [setResult_result]

theorem setResult_result_ne (s : GState V E) (r : Nat)
    (res : Option (RequestResult V E)) {x : Nat} (h : x ≠ r) :
    (setResult s r res).result x = s.result x := by
  simp [setResult_result, h]

@[simp] theorem setResponsibleWorker_numWorkers (s : GState V E) (r w : Nat) :
    (setResponsibleWorker s r w).numWorkers = s.numWorkers := rfl

@[simp] theorem setResponsibleWorker_numReqs (s : GState V E) (r w : Nat) :
    (setResponsibleWorker s r w).numReqs = s.numReqs := rfl

@[simp] theorem setResponsibleWorker_result (s : GState V E) (r w : Nat) :
    (setResponsibleWorker s r w).result = s.result := rfl

@[simp] theorem setResponsibleWorker_awaiting (s : GState V E) (r w : Nat) :
    (setResponsibleWorker s r w).awaiting = s.awaiting := rfl

@[simp] theorem setResponsibleWorker_responsibleFor (s : GState V E)
    (r w : Nat) :
    (setResponsibleWorker s r w).responsibleFor = s.responsibleFor := rfl

theorem setResponsibleWorker_responsible (s : GState V E) (r w x : Nat) :
    (setResponsibleWorker s r w).responsible x =
      if x = r then w else s.responsible x := rfl

/-! ### `resolveUsageFault` -/

@[simp] theorem resolveUsageFault_numWorkers (s : GState V E) (r : Nat)
    (e : WGError E) : (resolveUsageFault s r e).numWorkers = s.numWorkers := by
  unfold resolveUsageFault; cases s.result r <;> rfl

@[simp] theorem resolveUsageFault_numReqs (s : GState V E) (r : Nat)
    (e : WGError E) : (resolveUsageFault s r e).numReqs = s.numReqs := by
  unfold resolveUsageFault; cases s.result r <;> rfl

@[simp] theorem resolveUsageFault_responsible (s : GState V E) (r : Nat)
    (e : WGError E) : (resolveUsageFault s r e).responsible = s.responsible := by
  unfold resolveUsageFault; cases s.result r <;> rfl

@[simp] theorem resolveUsageFault_awaiting (s : GState V E) (r : Nat)
    (e : WGError E) : (resolveUsageFault s r e).awaiting = s.awaiting := by
  unfold resolveUsageFault; cases s.result r <;> rfl

@[simp] theorem resolveUsageFault_responsibleFor (s : GState V E) (r : Nat)
    (e : WGError E) :
    (resolveUsageFault s r e).responsibleFor = s.responsibleFor := by
  unfold resolveUsageFault; cases s.result r <;> rfl

theorem resolveUsageFault_of_some (s : GState V E) (r : Nat) (e : WGError E)
    {x : RequestResult V E} (h : s.result r = some x) :
    resolveUsageFault s r e = s := by
  unfold resolveUsageFault; rw [h]

theorem resolveUsageFault_result_self (s : GState V E) (r : Nat)
    (e : WGError E) (h : s.result r = none) :
    (resolveUsageFault s r e).result r = some (newUsageFaultResult e) := by
  unfold resolveUsageFault; rw [h]; simp

theorem resolveUsageFault_result_ne (s : GState V E) (r : Nat) (e : WGError E)
    {q : Nat} (h : q ≠ r) :
    (resolveUsageFault s r e).result q = s.result q := by
  unfold resolveUsageFault
  cases hr : s.result r with
  | none => exact setResult_result_ne s r _ h
  | some _ => rfl

theorem resolveUsageFault_result_some (s : GState V E) (r : Nat)
    (e : WGError E) {q : Nat} {x : RequestResult V E}
    (h : s.result q = some x) :
    (resolveUsageFault s r e).result q = some x := by
  by_cases hq : q = r
  · subst hq
    rw [resolveUsageFault_of_some s q e h, h]
  · rw [resolveUsageFault_result_ne s r e hq, h]

/-! ### Folded usage faults -/

theorem handleDropped_eq_faultEach (s : GState V E) (w : Nat) :
    handleDropped s w =
      faultEach s (fun r => WGError.unresolved r) (s.responsibleFor w) := rfl

@[simp] theorem faultEach_nil (s : GState V E) (f : Nat → WGError E) :
    faultEach s f [] = s := rfl

theorem faultEach_cons (s : GState V E) (f : Nat → WGError E) (a : Nat)
    (l : List Nat) :
    faultEach s f (a :: l) = faultEach (resolveUsageFault s a (f a)) f l := rfl

@[simp] theorem faultEach_numWorkers (f : Nat → WGError E) (l : List Nat) :
    ∀ s : GState V E, (faultEach s f l).numWorkers = s.numWorkers := by
  induction l with
  | nil => intro s; rfl
  | cons a t ih =>
      intro s
      rw [faultEach_cons]
      rw [ih]
      simp

@[simp] theorem faultEach_numReqs (f : Nat → WGError E) (l : List Nat) :
    ∀ s : GState V E, (faultEach s f l).numReqs = s.numReqs := by
  induction l with
  | nil => intro s; rfl
  | cons a t ih =>
      intro s
      rw [faultEach_cons, ih]
      simp

@[simp] theorem faultEach_responsible (f : Nat → WGError E) (l : List Nat) :
    ∀ s : GState V E, (faultEach s f l).responsible = s.responsible := by
  induction l with
  | nil => intro s; rfl
  | cons a t ih =>
      intro s
      rw [faultEach_cons, ih]
      simp

@[simp] theorem faultEach_awaiting (f : Nat → WGError E) (l : List Nat) :
    ∀ s : GState V E, (faultEach s f l).awaiting = s.awaiting := by
  induction l with
  | nil => intro s; rfl
  | cons a t ih =>
      intro s
      rw [faultEach_cons, ih]
      simp

@[simp] theorem faultEach_responsibleFor (f : Nat → WGError E) (l : List Nat) :
    ∀ s : GState V E, (faultEach s f l).responsibleFor = s.responsibleFor := by
  induction l with
  | nil => intro s; rfl
  | cons a t ih =>
      intro s
      rw [faultEach_cons, ih]
      simp

theorem faultEach_result_some (f : Nat → WGError E) (l : List Nat) :
    ∀ (s : GState V E) (q : Nat) (x : RequestResult V E),
      s.result q = some x → (faultEach s f l).result q = some x := by
  induction l with
  | nil => intro s q x h; exact h
  | cons a t ih =>
      intro s q x h
      rw [faultEach_cons]
      exact ih _ q x (resolveUsageFault_result_some s a (f a) h)

theorem faultEach_result_not_mem (f : Nat → WGError E) (l : List Nat) :
    ∀ (s : GState V E) (q : Nat), q ∉ l →
      (faultEach s f l).result q = s.result q := by
  induction l with
  | nil => intro s q _; rfl
  | cons a t ih =>
      intro s q h
      rw [faultEach_cons]
      have hqa : q ≠ a := fun hc => h (hc ▸ List.mem_cons_self a t)
      rw [ih _ q (fun hc => h (List.mem_cons_of_mem a hc))]
      exact resolveUsageFault_result_ne s a (f a) hqa

theorem faultEach_result_mem (f : Nat → WGError E) (l : List Nat) :
    ∀ (s : GState V E) (q : Nat), q ∈ l → s.result q = none →
      (faultEach s f l).result q = some (newUsageFaultResult (f q)) := by
  induction l with
  | nil => intro s q h; exact absurd h (List.not_mem_nil q)
  | cons a t ih =>
      intro s q h hq
      rw [faultEach_cons]
      by_cases hqa : q = a
      · subst hqa
        exact faultEach_result_some f t _ q _
          (resolveUsageFault_result_self s q (f q) hq)
      · have ht : q ∈ t := by
          cases List.mem_cons.mp h with
          | inl hc => exact absurd hc hqa
          | inr hc => exact hc
        refine ih _ q ht ?_
        rw [resolveUsageFault_result_ne s a (f a) hqa]
        exact hq

/-! ### `resolveExplicit` -/

/-- Inversion of a non-panicking `resolveExplicit` call: the caller was the
responsible worker and either a prior usage-fault resolution was silently
ignored, or the explicit result was stored into the unset slot. -/
theorem resolveExplicit_ok_inv {s s1 : GState V E} {w r : Nat} {v : Option V}
    {e : Option (WGError E)} (h : resolveExplicit s w r v e = .ok s1) :
    w = s.responsible r ∧
      ((∃ res, s.result r = some res ∧ res.IsExplicit = false ∧ s1 = s) ∨
       (s.result r = none ∧ ∃ x, v = some x ∧
          s1 = setResult s r (some (RequestResult.mk (some x) e)))) := by
  unfold resolveExplicit at h
  split at h
  · exact absurd h (by simp)
  · rename_i hw
    push_neg at hw
    refine ⟨hw, ?_⟩
    split at h
    · rename_i res hres
      split at h
      · exact absurd h (by simp)
      · rename_i hex
        refine Or.inl ⟨res, hres, by simpa using hex, ?_⟩
        cases h; rfl
    · rename_i hres
      split at h
      · exact absurd h (by simp)
      · cases h
        exact Or.inr ⟨hres, _, rfl, rfl⟩

theorem resolveExplicit_ok_numWorkers {s s1 : GState V E} {w r : Nat}
    {v : Option V} {e : Option (WGError E)}
    (h : resolveExplicit s w r v e = .ok s1) : s1.numWorkers = s.numWorkers := by
  rcases (resolveExplicit_ok_inv h).2 with ⟨res, _, _, rfl⟩ | ⟨_, x, _, rfl⟩ <;>
    simp

theorem resolveExplicit_ok_numReqs {s s1 : GState V E} {w r : Nat}
    {v : Option V} {e : Option (WGError E)}
    (h : resolveExplicit s w r v e = .ok s1) : s1.numReqs = s.numReqs := by
  rcases (resolveExplicit_ok_inv h).2 with ⟨res, _, _, rfl⟩ | ⟨_, x, _, rfl⟩ <;>
    simp

theorem resolveExplicit_ok_awaiting {s s1 : GState V E} {w r : Nat}
    {v : Option V} {e : Option (WGError E)}
    (h : resolveExplicit s w r v e = .ok s1) : s1.awaiting = s.awaiting := by
  rcases (resolveExplicit_ok_inv h).2 with ⟨res, _, _, rfl⟩ | ⟨_, x, _, rfl⟩ <;>
    simp

theorem resolveExplicit_ok_responsible {s s1 : GState V E} {w r : Nat}
    {v : Option V} {e : Option (WGError E)}
    (h : resolveExplicit s w r v e = .ok s1) :
    s1.responsible = s.responsible := by
  rcases (resolveExplicit_ok_inv h).2 with ⟨res, _, _, rfl⟩ | ⟨_, x, _, rfl⟩ <;>
    simp

theorem resolveExplicit_ok_responsibleFor {s s1 : GState V E} {w r : Nat}
    {v : Option V} {e : Option (WGError E)}
    (h : resolveExplicit s w r v e = .ok s1) :
    s1.responsibleFor = s.responsibleFor := by
  rcases (resolveExplicit_ok_inv h).2 with ⟨res, _, _, rfl⟩ | ⟨_, x, _, rfl⟩ <;>
    simp

theorem resolveExplicit_ok_result_some {s s1 : GState V E} {w r : Nat}
    {v : Option V} {e : Option (WGError E)}
    (h : resolveExplicit s w r v e = .ok s1) {q : Nat} {x : RequestResult V E}
    (hq : s.result q = some x) : s1.result q = some x := by
  rcases (resolveExplicit_ok_inv h).2 with ⟨res, _, _, rfl⟩ | ⟨hn, y, _, rfl⟩
  · exact hq
  · have hqr : q ≠ r := fun hc => by rw [hc, hn] at hq; cases hq
    rw [setResult_result_ne _ _ _ hqr]
    exact hq

/-! ### Allocation -/

theorem delegateTo_responsible (w : Nat) (rs : List Nat) :
    ∀ (s : GState V E) (x : Nat),
      (delegateTo s w rs).responsible x =
        if x ∈ rs then w else s.responsible x := by
  induction rs with
  | nil => intro s x; simp [delegateTo]
  | cons a t ih =>
      intro s x
      have hstep : delegateTo s w (a :: t) =
          delegateTo (setResponsibleWorker s a w) w t := rfl
      rw [hstep, ih]
      by_cases hxt : x ∈ t
      · simp [hxt]
      · by_cases hxa : x = a
        · subst hxa
          simp [hxt, setResponsibleWorker_responsible]
        · simp [hxt, hxa, setResponsibleWorker_responsible, List.mem_cons]

@[simp] theorem delegateTo_numWorkers (w : Nat) (rs : List Nat) :
    ∀ s : GState V E, (delegateTo s w rs).numWorkers = s.numWorkers := by
  induction rs with
  | nil => intro s; rfl
  | cons a t ih => intro s; exact (ih _).trans rfl

@[simp] theorem delegateTo_numReqs (w : Nat) (rs : List Nat) :
    ∀ s : GState V E, (delegateTo s w rs).numReqs = s.numReqs := by
  induction rs with
  | nil => intro s; rfl
  | cons a t ih => intro s; exact (ih _).trans rfl

@[simp] theorem delegateTo_result (w : Nat) (rs : List Nat) :
    ∀ s : GState V E, (delegateTo s w rs).result = s.result := by
  induction rs with
  | nil => intro s; rfl
  | cons a t ih => intro s; exact (ih _).trans rfl

@[simp] theorem delegateTo_awaiting (w : Nat) (rs : List Nat) :
    ∀ s : GState V E, (delegateTo s w rs).awaiting = s.awaiting := by
  induction rs with
  | nil => intro s; rfl
  | cons a t ih => intro s; exact (ih _).trans rfl

@[simp] theorem delegateTo_responsibleFor (w : Nat) (rs : List Nat) :
    ∀ s : GState V E, (delegateTo s w rs).responsibleFor = s.responsibleFor := by
  induction rs with
  | nil => intro s; rfl
  | cons a t ih => intro s; exact (ih _).trans rfl

@[simp] theorem NewWorker_snd (s : GState V E) (l : List Nat) :
    (NewWorker s l).2 = s.numWorkers := rfl

@[simp] theorem NewWorker_numWorkers (s : GState V E) (l : List Nat) :
    (NewWorker s l).1.numWorkers = s.numWorkers + 1 := by
  show (delegateTo _ _ _).numWorkers = _
  rw [delegateTo_numWorkers]
  rfl

@[simp] theorem NewWorker_numReqs (s : GState V E) (l : List Nat) :
    (NewWorker s l).1.numReqs = s.numReqs := by
  show (delegateTo _ _ _).numReqs = _
  rw [delegateTo_numReqs]
  rfl

@[simp] theorem NewWorker_result (s : GState V E) (l : List Nat) :
    (NewWorker s l).1.result = s.result := by
  show (delegateTo _ _ _).result = _
  rw [delegateTo_result]
  rfl

theorem NewWorker_awaiting (s : GState V E) (l : List Nat) (x : Nat) :
    (NewWorker s l).1.awaiting x =
      if x = s.numWorkers then none else s.awaiting x := by
  show (delegateTo _ _ _).awaiting x = _
  rw [delegateTo_awaiting]
  rfl

theorem NewWorker_responsibleFor (s : GState V E) (l : List Nat) (x : Nat) :
    (NewWorker s l).1.responsibleFor x =
      if x = s.numWorkers then [] else s.responsibleFor x := by
  show (delegateTo _ _ _).responsibleFor x = _
  rw [delegateTo_responsibleFor]
  rfl

theorem NewWorker_responsible (s : GState V E) (l : List Nat) (x : Nat) :
    (NewWorker s l).1.responsible x =
      if x ∈ l then s.numWorkers else s.responsible x := by
  show (delegateTo _ _ _).responsible x = _
  rw [delegateTo_responsible]
  rfl

@[simp] theorem newRequestInner_snd (s : GState V E) (w : Nat) :
    (newRequestInner s w).2 = s.numReqs := rfl

@[simp] theorem newRequestInner_numWorkers (s : GState V E) (w : Nat) :
    (newRequestInner s w).1.numWorkers = s.numWorkers := rfl

@[simp] theorem newRequestInner_numReqs (s : GState V E) (w : Nat) :
    (newRequestInner s w).1.numReqs = s.numReqs + 1 := rfl

@[simp] theorem newRequestInner_awaiting (s : GState V E) (w : Nat) :
    (newRequestInner s w).1.awaiting = s.awaiting := rfl

@[simp] theorem newRequestInner_responsibleFor (s : GState V E) (w : Nat) :
    (newRequestInner s w).1.responsibleFor = s.responsibleFor := rfl

theorem newRequestInner_responsible (s : GState V E) (w x : Nat) :
    (newRequestInner s w).1.responsible x =
      if x = s.numReqs then w else s.responsible x := rfl

theorem newRequestInner_result (s : GState V E) (w x : Nat) :
    (newRequestInner s w).1.result x =
      if x = s.numReqs then none else s.result x := rfl

@[simp] theorem iterNext_zero (s : GState V E) (w : Nat) :
    iterNext s 0 w = some w := rfl

theorem iterNext_succ (s : GState V E) (n w : Nat) :
    iterNext s (n + 1) w = (stepN s w).bind (iterNext s n) := by
  simp only [iterNext, stepN]
  cases h : s.awaiting w <;> simp [h]

theorem iterNext_one (s : GState V E) (w : Nat) :
    iterNext s 1 w = stepN s w := by
  rw [iterNext_succ]
  cases h : stepN s w <;> rfl

theorem iterNext_add (s : GState V E) (a b w : Nat) :
    iterNext s (a + b) w = (iterNext s a w).bind (iterNext s b) := by
  induction a generalizing w with
  | zero => simp
  | succ a ih =>
      have h1 : a + 1 + b = (a + b) + 1 := by omega
      rw [h1, iterNext_succ, iterNext_succ]
      cases h : stepN s w with
      | none => rfl
      | some u => simpa using ih u

theorem iterNext_none_stable (s : GState V E) {n w : Nat}
    (h : iterNext s n w = none) {m : Nat} (hm : n ≤ m) :
    iterNext s m w = none := by
  have h1 : m = n + (m - n) := by omega
  rw [h1, iterNext_add, h]
  rfl

theorem iterNext_periodic (s : GState V E) {d u : Nat}
    (h : iterNext s d u = some u) (k : Nat) :
    iterNext s (k * d) u = some u := by
  induction k with
  | zero => simp
  | succ k ih =>
      have h1 : (k + 1) * d = k * d + d := by ring
      rw [h1, iterNext_add, ih]
      simpa using h

/-- On a well-formed state, a chain that ends at all ends within
`blockedCount + 1` hops: the workers visited before the end are pairwise
distinct and all blocked. -/
theorem iter_none_bound (s : GState V E) (hwf : WF s) {w n : Nat}
    (h : iterNext s n w = none) :
    ∃ m, m ≤ blockedCount s + 1 ∧ iterNext s m w = none := by
  have hP : ∃ m, iterNext s m w = none := ⟨n, h⟩
  classical
  set n0 := Nat.find hP with hn0
  have hspec : iterNext s n0 w = none := Nat.find_spec hP
  have hmin : ∀ i, i < n0 → iterNext s i w ≠ none := fun i hi => Nat.find_min hP hi
  refine ⟨n0, ?_, hspec⟩
  -- the visited workers
  set u : Nat → Nat := fun i => (iterNext s i w).getD 0 with hu
  have hsome : ∀ i, i < n0 → iterNext s i w = some (u i) := by
    intro i hi
    cases hx : iterNext s i w with
    | none => exact absurd hx (hmin i hi)
    | some c => simp [hu, hx]
  -- distinctness of visited workers
  have hdist : ∀ i j, i < j → j < n0 → u i ≠ u j := by
    intro i j hij hj heq
    have hi' : iterNext s i w = some (u i) := hsome i (lt_trans hij hj)
    have hj' : iterNext s j w = some (u i) := by rw [hsome j hj, heq]
    have hd : iterNext s (j - i) (u i) = some (u i) := by
      have h1 : j = i + (j - i) := by omega
      have h2 := iterNext_add s i (j - i) w
      rw [← h1, hj', hi'] at h2
      simpa using h2.symm
    have hper := iterNext_periodic s hd n0
    have hge : n0 ≤ n0 * (j - i) := Nat.le_mul_of_pos_right n0 (by omega)
    have hnone : iterNext s (i + n0 * (j - i)) w = none :=
      iterNext_none_stable s hspec (by omega)
    have h3 := iterNext_add s i (n0 * (j - i)) w
    rw [hnone, hi'] at h3
    simp [hper] at h3
  -- visited workers (except possibly the last) are blocked
  have hblocked : ∀ i, i + 1 < n0 →
      (s.awaiting (u i)).isSome ∧ u i < s.numWorkers := by
    intro i hi
    have h1 : iterNext s (i + 1) w ≠ none := hmin (i + 1) hi
    rw [iterNext_add, hsome i (by omega)] at h1
    have h2 : iterNext s 1 (u i) ≠ none := by simpa using h1
    rw [iterNext_one] at h2
    unfold stepN at h2
    cases hx : s.awaiting (u i) with
    | none => rw [hx] at h2; exact absurd rfl h2
    | some r =>
        refine ⟨by simp [hx], hwf.awaiting_lt (u i) (by simp [hx])⟩
  -- pigeonhole through a nodup list of blocked workers
  by_contra hbig
  push_neg at hbig
  have hL : ∀ i ∈ List.range (n0 - 1), u i ∈
      (Finset.range s.numWorkers).filter (fun x => (s.awaiting x).isSome) := by
    intro i hi
    have hi' : i + 1 < n0 := by
      have := List.mem_range.mp hi
      omega
    rcases hblocked i hi' with ⟨hb, hlt⟩
    simp only [Finset.mem_filter, Finset.mem_range]
    exact ⟨hlt, hb⟩
  have hnodup : ((List.range (n0 - 1)).map u).Nodup := by
    refine List.Nodup.map_on ?_ (List.nodup_range _)
    intro i hi j hj heq
    by_contra hne
    rcases Nat.lt_or_ge i j with hlt | hge
    · exact hdist i j hlt (by have := List.mem_range.mp hj; omega) heq
    · have hlt : j < i := by omega
      exact hdist j i hlt (by have := List.mem_range.mp hi; omega) heq.symm
  have hsub : ((List.range (n0 - 1)).map u).toFinset ⊆
      (Finset.range s.numWorkers).filter (fun x => (s.awaiting x).isSome) := by
    intro x hx
    rcases List.mem_map.mp (List.mem_toFinset.mp hx) with ⟨i, hi, rfl⟩
    exact hL i hi
  have hcard : ((List.range (n0 - 1)).map u).toFinset.card = n0 - 1 := by
    rw [List.toFinset_card_of_nodup hnodup]
    simp
  have hle : n0 - 1 ≤ blockedCount s := by
    rw [← hcard]
    exact Finset.card_le_card hsub
  omega

/-! ## Lemmas about the self-dependency walk -/

/-- The collect-mode walk only ever appends to its accumulator. -/
theorem detectLoop_acc_prefix (s : GState V E) (rw : Nat) (c : Bool) :
    ∀ (fuel cw cr : Nat) (acc : List Nat) (b : Bool) (l : List Nat),
      detectLoop s rw c fuel cw cr acc = some (b, l) → ∃ t, l = acc ++ t := by
  intro fuel
  induction fuel with
  | zero => intro cw cr acc b l h; exact absurd h (by simp [detectLoop])
  | succ fuel ih =>
      intro cw cr acc b l h
      unfold detectLoop at h
      split at h
      · cases h; exact ⟨[], by simp⟩
      · split at h
        · cases h; exact ⟨[], by simp⟩
        · split at h
          · cases h; exact ⟨[], by simp⟩
          · rename_i nextReq hnext hfresh
            rcases ih _ _ _ _ _ h with ⟨t, ht⟩
            cases c with
            | true => exact ⟨nextReq :: t, by simpa using ht⟩
            | false => exact ⟨t, by simpa using ht⟩

/-- The walk's verdict does not depend on the collect mode. -/
theorem detectLoop_fst_mode (s : GState V E) (rw : Nat) :
    ∀ (fuel cw cr : Nat) (acc1 acc2 : List Nat),
      (detectLoop s rw false fuel cw cr acc1).map Prod.fst =
        (detectLoop s rw true fuel cw cr acc2).map Prod.fst := by
  intro fuel
  induction fuel with
  | zero => intro cw cr acc1 acc2; rfl
  | succ fuel ih =>
      intro cw cr acc1 acc2
      unfold detectLoop
      split
      · rfl
      · cases hnext : s.awaiting cw with
        | none => rfl
        | some nextReq =>
            dsimp only
            by_cases hfresh : s.responsible cr ≠ cw
            · rw [if_pos hfresh, if_pos hfresh]; rfl
            · rw [if_neg hfresh, if_neg hfresh]
              exact ih _ _ _ _

/-- `detectSelfDependency` reports the same verdict in both modes. -/
theorem detectSelfDependency_fst_mode (s : GState V E) (r rw fuel : Nat) :
    (detectSelfDependency s r rw false fuel).map Prod.fst =
      (detectSelfDependency s r rw true fuel).map Prod.fst := by
  unfold detectSelfDependency
  exact detectLoop_fst_mode s rw fuel _ _ _ _

/-- In collect mode the starting request heads the collected list. -/
theorem detectSelfDependency_head {s : GState V E} {r rw fuel : Nat}
    {b : Bool} {l : List Nat}
    (h : detectSelfDependency s r rw true fuel = some (b, l)) :
    ∃ t, l = r :: t := by
  unfold detectSelfDependency at h
  rcases detectLoop_acc_prefix s rw true fuel _ _ _ _ _ h with ⟨t, ht⟩
  exact ⟨t, by simpa using ht⟩

/-- If the stopped chain from `cw` dies within `n` hops, the walk from
`(cw, cr)` returns within fuel `n`, visiting at most `n` further requests.
The hypothesis `hinv` is the loop invariant relating `cr` to `cw`. -/
theorem detectLoop_terminates (s : GState V E) (rw : Nat) (c : Bool) :
    ∀ (n fuel cw cr : Nat) (acc : List Nat),
      iterStop s rw n cw = none → s.responsible cr = cw → n ≤ fuel →
      ∃ b l, detectLoop s rw c fuel cw cr acc = some (b, l) ∧
        l.length ≤ acc.length + n := by
  intro n
  induction n with
  | zero => intro fuel cw cr acc h _ _; exact absurd h (by simp [iterStop])
  | succ n ih =>
      intro fuel cw cr acc h hinv hle
      obtain ⟨f, rfl⟩ : ∃ f, fuel = f + 1 := ⟨fuel - 1, by omega⟩
      unfold iterStop at h
      unfold detectLoop
      by_cases hstop : cw = rw
      · rw [if_pos hstop]
        exact ⟨true, acc, rfl, by omega⟩
      · rw [if_neg hstop] at h
        rw [if_neg hstop]
        cases hnext : s.awaiting cw with
        | none => exact ⟨false, acc, rfl, by omega⟩
        | some nextReq =>
            rw [hnext] at h
            dsimp only at h ⊢
            rw [if_neg (by rw [hinv]; exact fun hc => hc rfl)]
            rcases ih f (s.responsible nextReq) nextReq
                (if c then acc ++ [nextReq] else acc) h rfl (by omega)
              with ⟨b, l, hl, hlen⟩
            refine ⟨b, l, hl, ?_⟩
            cases c <;> simp at hlen <;> omega

/-- If the stopped chain never actually needs the stop (the plain chain dies),
stopping can only end it sooner. -/
theorem iterStop_of_iterNext {s s1 : GState V E} {rw : Nat}
    (haw : ∀ x, x ≠ rw → s1.awaiting x = s.awaiting x)
    (hresp : s1.responsible = s.responsible) :
    ∀ n cw, iterNext s n cw = none → iterStop s1 rw n cw = none := by
  intro n
  induction n with
  | zero => intro cw h; exact absurd h (by simp)
  | succ n ih =>
      intro cw h
      unfold iterStop
      by_cases hstop : cw = rw
      · rw [if_pos hstop]
      · rw [if_neg hstop, haw cw hstop]
        unfold iterNext at h
        cases hnext : s.awaiting cw with
        | none => rfl
        | some r =>
            rw [hnext] at h
            dsimp only at h ⊢
            rw [hresp]
            exact ih _ h

/-- A walk that reports no cycle certifies that the chain from its starting
worker never reaches the requesting worker.  The chain is read in the
underlying state `s`; the walk ran in `s1`, which may differ from `s` only at
the requesting worker's own `awaiting` pointer. -/
theorem detectLoop_false_not_reach {s s1 : GState V E} {rw : Nat} {c : Bool}
    (haw : ∀ x, x ≠ rw → s1.awaiting x = s.awaiting x)
    (hresp : s1.responsible = s.responsible) :
    ∀ (fuel cw cr : Nat) (acc l : List Nat),
      detectLoop s1 rw c fuel cw cr acc = some (false, l) →
      s1.responsible cr = cw →
      ∀ m, iterNext s m cw ≠ some rw := by
  intro fuel
  induction fuel with
  | zero => intro cw cr acc l h _ m; exact absurd h (by simp [detectLoop])
  | succ fuel ih =>
      intro cw cr acc l h hinv m
      unfold detectLoop at h
      split at h
      · exact absurd h (by simp)
      · rename_i hstop
        cases m with
        | zero => intro hc; exact hstop (by simpa using hc)
        | succ m =>
            rw [iterNext_succ]
            cases hnext : s.awaiting cw with
            | none => simp [stepN, hnext]
            | some nextReq =>
                rw [haw cw hstop, hnext] at h
                dsimp only at h
                rw [if_neg (by rw [hinv]; exact fun hc => hc rfl)] at h
                have hthis := ih (s1.responsible nextReq) nextReq _ l h rfl m
                rw [hresp] at hthis
                simp only [stepN, hnext, Option.bind_some]
                exact hthis

/-- A chain that dies in `s` while never reaching `rw` also dies in a state
that differs from `s` only at `rw`'s own `awaiting` pointer. -/
theorem iterNext_avoid_transfer {s s1 : GState V E} {rw : Nat}
    (haw : ∀ x, x ≠ rw → s1.awaiting x = s.awaiting x)
    (hresp : s1.responsible = s.responsible) :
    ∀ n cw, (∀ m, iterNext s m cw ≠ some rw) → iterNext s n cw = none →
      iterNext s1 n cw = none := by
  intro n
  induction n with
  | zero => intro cw _ h; exact absurd h (by simp)
  | succ n ih =>
      intro cw havoid h
      have hcw : cw ≠ rw := fun hc => havoid 0 (by simp [hc])
      unfold iterNext at h ⊢
      rw [haw cw hcw]
      cases hnext : s.awaiting cw with
      | none => rfl
      | some r =>
          rw [hnext] at h
          dsimp only at h ⊢
          rw [hresp]
          refine ih _ (fun m => ?_) h
          have := havoid (m + 1)
          rw [iterNext_succ] at this
          simpa [stepN, hnext] using this

/-- Adding the new `awaiting` edge of a blocked worker preserves chain
termination, provided the walk certified that no cycle was created. -/
theorem term_after_block {s : GState V E} {W R fuel : Nat}
    (hA : s.awaiting W = none) (hterm : Term s)
    {l : List Nat}
    (hnc : detectSelfDependency (setAwaiting s W (some R)) R W false fuel =
      some (false, l)) :
    Term (setAwaiting s W (some R)) := by
  set s1 := setAwaiting s W (some R) with hs1
  have haw : ∀ x, x ≠ W → s1.awaiting x = s.awaiting x := by
    intro x hx
    exact setAwaiting_awaiting_ne s W (some R) hx
  have hresp : s1.responsible = s.responsible := rfl
  -- the chain from the worker responsible for R never reaches W
  have hnr : ∀ m, iterNext s m (s.responsible R) ≠ some W := by
    unfold detectSelfDependency at hnc
    exact detectLoop_false_not_reach haw hresp fuel _ R _ l hnc rfl
  -- the chain from W itself dies in s1
  have hW : ∃ m, iterNext s1 m W = none := by
    rcases hterm (s.responsible R) with ⟨n1, hn1⟩
    have h1 : iterNext s1 n1 (s.responsible R) = none :=
      iterNext_avoid_transfer haw hresp n1 _ hnr hn1
    refine ⟨n1 + 1, ?_⟩
    unfold iterNext
    rw [show s1.awaiting W = some R from setAwaiting_awaiting_self s W (some R)]
    exact h1
  -- now every worker's chain dies in s1
  intro w
  rcases hterm w with ⟨n, hn⟩
  clear hnc
  induction n using Nat.strong_induction_on generalizing w with
  | _ n ih =>
      by_cases hw : w = W
      · subst hw; exact hW
      · cases n with
        | zero => exact absurd hn (by simp)
        | succ n =>
            unfold iterNext at hn
            cases hnext : s.awaiting w with
            | none =>
                refine ⟨1, ?_⟩
                unfold iterNext
                rw [haw w hw, hnext]
            | some r =>
                rw [hnext] at hn
                dsimp only at hn
                rcases ih n (by omega) _ hn with ⟨m, hm⟩
                refine ⟨m + 1, ?_⟩
                unfold iterNext
                rw [haw w hw, hnext]
                exact hm

/-- Blocking one more (previously idle, allocated) worker increases the
blocked count by one. -/
theorem blockedCount_setAwaiting_some (s : GState V E) {W : Nat} (R : Nat)
    (hWlt : W < s.numWorkers) (hA : s.awaiting W = none) :
    blockedCount (setAwaiting s W (some R)) = blockedCount s + 1 := by
  unfold blockedCount
  have hset : (Finset.range s.numWorkers).filter
        (fun w => ((setAwaiting s W (some R)).awaiting w).isSome) =
      insert W ((Finset.range s.numWorkers).filter
        (fun w => (s.awaiting w).isSome)) := by
    ext x
    simp only [Finset.mem_filter, Finset.mem_insert, Finset.mem_range,
      setAwaiting_awaiting]
    by_cases hx : x = W
    · subst hx; simp [hWlt]
    · simp [hx]
  rw [show (setAwaiting s W (some R)).numWorkers = s.numWorkers from rfl, hset,
    Finset.card_insert_of_not_mem]
  simp [Finset.mem_filter, hA]

/-- Inversion of a blocked `Await`: the worker was idle, the request
unresolved, the post-state records the new `awaiting` edge, and the walk
certified the absence of a cycle. -/
theorem promiseAwait_blocked_inv {s s1 : GState V E} {W R fuel : Nat}
    (h : promiseAwait s W R fuel = .blocked s1) :
    s.awaiting W = none ∧ s.result R = none ∧
      s1 = setAwaiting s W (some R) ∧
      ∃ l, detectSelfDependency (setAwaiting s W (some R)) R W false fuel =
        some (false, l) := by
  unfold promiseAwait at h
  split at h
  · exact absurd h (by simp)
  · rename_i hidle
    have hA : s.awaiting W = none := by
      cases hx : s.awaiting W with
      | none => rfl
      | some r => rw [hx] at hidle; simp at hidle
    split at h
    · exact absurd h (by simp)
    · rename_i hres
      unfold awaitSlow at h
      rw [if_neg (by rw [hA]; simp)] at h
      refine ⟨hA, hres, ?_⟩
      split at h
      · exact absurd h (by simp)
      · rename_i l hdet
        cases h
        exact ⟨rfl, l, hdet⟩
      · exfalso
        split at h
        · exact absurd h (by simp)
        · rename_i p2 hdet2
          obtain ⟨b2, l2⟩ := p2
          split at h
          · exact absurd h (by simp)
          · rename_i hnone
            rcases detectSelfDependency_head hdet2 with ⟨t, hl⟩
            have hmem : R ∈ (b2, l2).2 := by
              rw [show (b2, l2).2 = l2 from rfl, hl]
              exact List.mem_cons_self _ _
            have : (faultEach (setAwaiting s W (some R))
                (fun _ => WGError.selfDependency (b2, l2).2) (b2, l2).2).result
                  R =
                some (newUsageFaultResult (WGError.selfDependency (b2, l2).2)) :=
              faultEach_result_mem _ _ _ R hmem (by simpa using hres)
            rw [this] at hnone
            cases hnone

/-- Inversion of a returning `Await`: the graph shape (worker counts, edges,
responsibilities) is unchanged and resolved requests stay resolved with the
same result; the worker's `awaiting` claim has been released again. -/
theorem promiseAwait_returned_skeleton {s s1 : GState V E} {W R fuel : Nat}
    {res : RequestResult V E}
    (h : promiseAwait s W R fuel = .returned res s1) :
    s1.numWorkers = s.numWorkers ∧ s1.numReqs = s.numReqs ∧
      s1.responsible = s.responsible ∧ s1.awaiting = s.awaiting ∧
      s1.responsibleFor = s.responsibleFor ∧
      (∀ q x, s.result q = some x → s1.result q = some x) := by
  unfold promiseAwait at h
  split at h
  · exact absurd h (by simp)
  · rename_i hidle
    have hA : s.awaiting W = none := by
      cases hx : s.awaiting W with
      | none => rfl
      | some r => rw [hx] at hidle; simp at hidle
    split at h
    · rename_i res0 hres0
      cases h
      exact ⟨rfl, rfl, rfl, rfl, rfl, fun q x hq => hq⟩
    · rename_i hres
      unfold awaitSlow at h
      rw [if_neg (by rw [hA]; simp)] at h
      split at h
      · exact absurd h (by simp)
      · exact absurd h (by simp)
      · split at h
        · exact absurd h (by simp)
        · rename_i p2 hdet2
          obtain ⟨b2, l2⟩ := p2
          split at h
          · rename_i res2 hres2
            cases h
            refine ⟨by simp, by simp, by simp, ?_, by simp, ?_⟩
            · funext x
              by_cases hx : x = W
              · subst hx
                rw [setAwaiting_awaiting_self, hA]
              · rw [setAwaiting_awaiting_ne _ _ _ hx]
                rw [show (faultEach (setAwaiting s W (some R))
                    (fun _ => WGError.selfDependency (b2, l2).2)
                    (b2, l2).2).awaiting = (setAwaiting s W (some R)).awaiting
                  from faultEach_awaiting _ _ _]
                exact setAwaiting_awaiting_ne _ _ _ hx
            · intro q x hq
              rw [setAwaiting_result]
              exact faultEach_result_some _ _ _ q x (by simpa using hq)
          · exact absurd h (by simp)

/-- Inversion of a wake-up from a blocked `Await`. -/
theorem awaitWake_returned_inv {s s1 : GState V E} {W R : Nat}
    {res : RequestResult V E} (h : awaitWake s W R = .returned res s1) :
    s.result R = some res ∧ s.awaiting W = some R ∧
      s1 = setAwaiting s W none := by
  unfold awaitWake at h
  split at h
  · rename_i res0 hres0
    split at h
    · rename_i hw
      cases h
      exact ⟨hres0, hw, rfl⟩
    · exact absurd h (by simp)
  · exact absurd h (by simp)

/-- Chains only depend on the `awaiting` edges and the responsibilities of
awaited requests. -/
theorem iterNext_congr {s s2 : GState V E}
    (haw : s2.awaiting = s.awaiting)
    (hresp : ∀ w r, s.awaiting w = some r →
      s2.responsible r = s.responsible r) :
    ∀ n w, iterNext s2 n w = iterNext s n w := by
  intro n
  induction n with
  | zero => intro w; rfl
  | succ n ih =>
      intro w
      unfold iterNext
      rw [haw]
      cases hnext : s.awaiting w with
      | none => rfl
      | some r =>
          dsimp only
          rw [hresp w r hnext, ih]

/-- Removing `awaiting` edges (without touching responsibilities) preserves
chain termination. -/
theorem term_of_awaiting_subset {s s2 : GState V E}
    (haw : ∀ x, s2.awaiting x = s.awaiting x ∨ s2.awaiting x = none)
    (hresp : s2.responsible = s.responsible)
    (h : Term s) : Term s2 := by
  intro w
  rcases h w with ⟨n, hn⟩
  induction n using Nat.strong_induction_on generalizing w with
  | _ n ih =>
      cases n with
      | zero => exact absurd hn (by simp)
      | succ n =>
          rcases haw w with hw | hw
          · unfold iterNext at hn
            cases hnext : s.awaiting w with
            | none => exact ⟨1, by unfold iterNext; rw [hw, hnext]⟩
            | some r =>
                rw [hnext] at hn
                dsimp only at hn
                rcases ih n (by omega) _ hn with ⟨m, hm⟩
                refine ⟨m + 1, ?_⟩
                unfold iterNext
                rw [hw, hnext]
                dsimp only
                rw [hresp]
                exact hm
          · exact ⟨1, by unfold iterNext; rw [hw]⟩

/-- Delegating requests to a freshly allocated worker preserves chain
termination: the new worker is not awaiting anything, so every re-pointed
edge now ends the chain one hop later. -/
theorem term_newWorker (s : GState V E) (l : List Nat) (h : Term s) :
    Term (NewWorker s l).1 := by
  intro w
  rcases h w with ⟨n, hn⟩
  induction n using Nat.strong_induction_on generalizing w with
  | _ n ih =>
      by_cases hw : w = s.numWorkers
      · refine ⟨1, ?_⟩
        unfold iterNext
        rw [NewWorker_awaiting, if_pos hw]
      · cases n with
        | zero => exact absurd hn (by simp)
        | succ n =>
            unfold iterNext at hn
            cases hnext : s.awaiting w with
            | none =>
                refine ⟨1, ?_⟩
                unfold iterNext
                rw [NewWorker_awaiting, if_neg hw, hnext]
            | some r =>
                rw [hnext] at hn
                dsimp only at hn
                by_cases hr : r ∈ l
                · refine ⟨2, ?_⟩
                  unfold iterNext
                  rw [NewWorker_awaiting, if_neg hw, hnext]
                  dsimp only
                  rw [NewWorker_responsible, if_pos hr]
                  unfold iterNext
                  rw [NewWorker_awaiting, if_pos rfl]
                · rcases ih n (by omega) _ hn with ⟨m, hm⟩
                  refine ⟨m + 1, ?_⟩
                  unfold iterNext
                  rw [NewWorker_awaiting, if_neg hw, hnext]
                  dsimp only
                  rw [NewWorker_responsible, if_neg hr]
                  exact hm

/-- Every step preserves the invariant. -/
theorem GStep_preserves_GInv {s s1 : GState V E} (hinv : GInv s)
    (hstep : GStep s s1) : GInv s1 := by
  obtain ⟨hwf, hterm⟩ := hinv
  cases hstep with
  | newWorker delegated hdel =>
      refine ⟨⟨?_, ?_, ?_⟩, term_newWorker s delegated hterm⟩
      · intro r hr
        rw [NewWorker_responsible]
        rw [NewWorker_numReqs] at hr
        split
        · simp
        · exact lt_trans (hwf.responsible_lt r hr) (by simp)
      · intro w hw
        rw [NewWorker_awaiting] at hw
        by_cases hweq : w = s.numWorkers
        · rw [NewWorker_numWorkers]; omega
        · rw [if_neg hweq] at hw
          have := hwf.awaiting_lt w hw
          rw [NewWorker_numWorkers]; omega
      · intro w r hw
        rw [NewWorker_awaiting] at hw
        split at hw
        · cases hw
        · rw [NewWorker_numReqs]
          exact hwf.awaiting_req_lt w r hw
  | newRequest w hwlt =>
      constructor
      · refine ⟨?_, ?_, ?_⟩
        · intro r hr
          rw [newRequestInner_responsible, newRequestInner_numWorkers]
          split
          · exact hwlt
          · rename_i hne
            rw [newRequestInner_numReqs] at hr
            exact hwf.responsible_lt r (by omega)
        · intro x hx
          rw [newRequestInner_awaiting] at hx
          rw [newRequestInner_numWorkers]
          exact hwf.awaiting_lt x hx
        · intro x r hx
          rw [newRequestInner_awaiting] at hx
          rw [newRequestInner_numReqs]
          have := hwf.awaiting_req_lt x r hx
          omega
      · intro w2
        rcases hterm w2 with ⟨n, hn⟩
        refine ⟨n, ?_⟩
        rw [iterNext_congr (newRequestInner_awaiting s w) ?_ n w2]
        · exact hn
        · intro x r hx
          rw [newRequestInner_responsible]
          rw [if_neg ?_]
          have := hwf.awaiting_req_lt x r hx
          omega
  | awaitBlock s1 W R hW hR h =>
      rcases promiseAwait_blocked_inv h with ⟨hA, hres, rfl, l, hdet⟩
      constructor
      · refine ⟨?_, ?_, ?_⟩
        · intro r hr
          exact hwf.responsible_lt r hr
        · intro x hx
          by_cases hxw : x = W
          · subst hxw; exact hW
          · rw [setAwaiting_awaiting, if_neg hxw] at hx
            exact hwf.awaiting_lt x hx
        · intro x r hx
          by_cases hxw : x = W
          · subst hxw
            rw [setAwaiting_awaiting_self] at hx
            cases hx
            exact hR
          · rw [setAwaiting_awaiting, if_neg hxw] at hx
            exact hwf.awaiting_req_lt x r hx
      · exact term_after_block hA hterm hdet
  | awaitReturn s1 W R res hW hR h =>
      rcases promiseAwait_returned_skeleton h with
        ⟨hnw, hnr, hresp, haw, hrf, hsome⟩
      constructor
      · refine ⟨?_, ?_, ?_⟩
        · intro r hr
          rw [hresp, hnw]
          exact hwf.responsible_lt r (by rwa [hnr] at hr)
        · intro x hx
          rw [haw] at hx
          rw [hnw]
          exact hwf.awaiting_lt x hx
        · intro x r hx
          rw [haw] at hx
          rw [hnr]
          exact hwf.awaiting_req_lt x r hx
      · intro w2
        rcases hterm w2 with ⟨n, hn⟩
        refine ⟨n, ?_⟩
        rw [iterNext_congr haw (fun x r _ => by rw [hresp]) n w2]
        exact hn
  | wake s1 W R res h =>
      rcases awaitWake_returned_inv h with ⟨hres, hw, rfl⟩
      constructor
      · refine ⟨?_, ?_, ?_⟩
        · intro r hr
          exact hwf.responsible_lt r hr
        · intro x hx
          rw [setAwaiting_awaiting] at hx
          split at hx
          · cases hx
          · exact hwf.awaiting_lt x hx
        · intro x r hx
          rw [setAwaiting_awaiting] at hx
          split at hx
          · cases hx
          · exact hwf.awaiting_req_lt x r hx
      · refine term_of_awaiting_subset ?_
          (show (setAwaiting s W none).responsible = s.responsible from rfl)
          hterm
        intro x
        rw [setAwaiting_awaiting]
        split
        · exact Or.inr rfl
        · exact Or.inl rfl
  | report s1 w r v e h =>
      have hnw := resolveExplicit_ok_numWorkers h
      have hnr := resolveExplicit_ok_numReqs h
      have haw := resolveExplicit_ok_awaiting h
      have hresp := resolveExplicit_ok_responsible h
      constructor
      · refine ⟨?_, ?_, ?_⟩
        · intro q hq
          rw [hresp, hnw]
          exact hwf.responsible_lt q (by rwa [hnr] at hq)
        · intro x hx
          rw [haw] at hx
          rw [hnw]
          exact hwf.awaiting_lt x hx
        · intro x q hx
          rw [haw] at hx
          rw [hnr]
          exact hwf.awaiting_req_lt x q hx
      · intro w2
        rcases hterm w2 with ⟨n, hn⟩
        refine ⟨n, ?_⟩
        rw [iterNext_congr haw (fun x q _ => by rw [hresp]) n w2]
        exact hn
  | drop w =>
      rw [handleDropped_eq_faultEach]
      constructor
      · refine ⟨?_, ?_, ?_⟩
        · intro q hq
          rw [show (faultEach s _ _).responsible = s.responsible from
            faultEach_responsible _ _ s]
          rw [faultEach_numWorkers]
          exact hwf.responsible_lt q (by rwa [faultEach_numReqs] at hq)
        · intro x hx
          rw [show (faultEach s _ _).awaiting = s.awaiting from
            faultEach_awaiting _ _ s] at hx
          rw [faultEach_numWorkers]
          exact hwf.awaiting_lt x hx
        · intro x q hx
          rw [show (faultEach s _ _).awaiting = s.awaiting from
            faultEach_awaiting _ _ s] at hx
          rw [faultEach_numReqs]
          exact hwf.awaiting_req_lt x q hx
      · intro w2
        rcases hterm w2 with ⟨n, hn⟩
        refine ⟨n, ?_⟩
        rw [iterNext_congr (faultEach_awaiting _ _ _)
          (fun x q _ => by rw [faultEach_responsible]) n w2]
        exact hn

/-- The empty graph satisfies the invariant. -/
theorem GInv_init : GInv (GState.init : GState V E) := by
  refine ⟨⟨?_, ?_, ?_⟩, ?_⟩
  · intro r hr; cases hr
  · intro w hw; simp [GState.init] at hw
  · intro w r hw; cases hw
  · intro w; exact ⟨1, rfl⟩

/-- All reachable states satisfy the invariant. -/
theorem Reach_GInv {s : GState V E} (h : Reach s) : GInv s := by
  induction h with
  | refl => exact GInv_init
  | tail hstep hprev ih =>
      exact GStep_preserves_GInv ih hprev

/-- Steps never lose workers or requests, and never change an already
resolved request's stored resolution. -/
theorem GStep_mono_result {s s1 : GState V E} (hstep : GStep s s1) :
    s.numWorkers ≤ s1.numWorkers ∧ s.numReqs ≤ s1.numReqs ∧
      ∀ q x, q < s.numReqs → s.result q = some x → s1.result q = some x := by
  cases hstep with
  | newWorker delegated hdel =>
      refine ⟨by rw [NewWorker_numWorkers]; omega, by rw [NewWorker_numReqs],
        fun q x _ hx => ?_⟩
      rw [NewWorker_result]; exact hx
  | newRequest w hwlt =>
      refine ⟨by rw [newRequestInner_numWorkers],
        by rw [newRequestInner_numReqs]; omega, fun q x hq hx => ?_⟩
      rw [newRequestInner_result, if_neg (by omega)]
      exact hx
  | awaitBlock s1 W R hW hR h =>
      rcases promiseAwait_blocked_inv h with ⟨_, _, rfl, _⟩
      exact ⟨le_refl _, le_refl _, fun q x _ hx => hx⟩
  | awaitReturn s1 W R res hW hR h =>
      rcases promiseAwait_returned_skeleton h with
        ⟨hnw, hnr, _, _, _, hsome⟩
      exact ⟨le_of_eq hnw.symm, le_of_eq hnr.symm, fun q x _ hx => hsome q x hx⟩
  | wake s1 W R res h =>
      rcases awaitWake_returned_inv h with ⟨_, _, rfl⟩
      exact ⟨le_refl _, le_refl _, fun q x _ hx => hx⟩
  | report s1 w r v e h =>
      exact ⟨le_of_eq (resolveExplicit_ok_numWorkers h).symm,
        le_of_eq (resolveExplicit_ok_numReqs h).symm,
        fun q x _ hx => resolveExplicit_ok_result_some h hx⟩
  | drop w =>
      rw [handleDropped_eq_faultEach]
      refine ⟨by rw [faultEach_numWorkers], by rw [faultEach_numReqs],
        fun q x _ hx => faultEach_result_some _ _ _ q x hx⟩

/-- The resolution slot of an allocated request is write-once along every
possible evolution of the system. -/
theorem Evolves_result_some {s s2 : GState V E} (h : Evolves s s2) :
    ∀ q x, q < s.numReqs → s.result q = some x →
      q < s2.numReqs ∧ s2.result q = some x := by
  induction h with
  | refl => exact fun q x hq hx => ⟨hq, hx⟩
  | tail hstep hprev ih =>
      intro q x hq hx
      rcases ih q x hq hx with ⟨hq2, hx2⟩
      rcases GStep_mono_result hprev with ⟨_, hmr, hres⟩
      exact ⟨by omega, hres q x hq2 hx2⟩

/-- C8: The lock-free cycle-detection walk terminates on every reachable
state of the worker/request graph, with fuel one more than the number of
workers blocked in `Await` once the requesting worker has claimed its
`awaiting` slot; the number of hops it performs — one less than the length
of the collected request list — is bounded by that blocked count. -/
theorem detect_terminates_bounded (s : GState V E) (hreach : Reach s)
    (W R : Nat) (hW : W < s.numWorkers) (hR : R < s.numReqs)
    (hA : s.awaiting W = none) :
    ∃ b l, detectSelfDependency (setAwaiting s W (some R)) R W true
        (blockedCount (setAwaiting s W (some R)) + 1) = some (b, l) ∧
      l.length - 1 ≤ blockedCount (setAwaiting s W (some R)) := by
  obtain ⟨hwf, hterm⟩ := Reach_GInv hreach
  have haw : ∀ x, x ≠ W →
      (setAwaiting s W (some R)).awaiting x = s.awaiting x := by
    intro x hx
    exact setAwaiting_awaiting_ne s W (some R) hx
  rcases hterm (s.responsible R) with ⟨n, hn⟩
  rcases iter_none_bound s hwf hn with ⟨n0, hn0le, hn0⟩
  have hstop : iterStop (setAwaiting s W (some R)) W n0 (s.responsible R) =
      none :=
    iterStop_of_iterNext haw rfl n0 _ hn0
  have hbl : blockedCount (setAwaiting s W (some R)) = blockedCount s + 1 :=
    blockedCount_setAwaiting_some s R hW hA
  rcases detectLoop_terminates (setAwaiting s W (some R)) W true n0
      (blockedCount (setAwaiting s W (some R)) + 1) (s.responsible R) R [R]
      hstop rfl (by omega) with ⟨b, l, hloop, hlen⟩
  refine ⟨b, l, ?_, ?_⟩
  · unfold detectSelfDependency
    simpa using hloop
  · simp at hlen
    omega

/-- An `Await` on a request whose resolution is already stored returns that
resolution immediately (fast path), for any worker not already awaiting. -/
theorem promiseAwait_resolved (s : GState V E) (w r fuel : Nat)
    (hw : s.awaiting w = none) {res : RequestResult V E}
    (hres : s.result r = some res) :
    promiseAwait s w r fuel = .returned res s := by
  unfold promiseAwait
  rw [hw, hres]
  rfl

theorem applyResOp_result_some (r : Nat) (s : GState V E) (op : ResOp V E)
    {x : RequestResult V E} (h : s.result r = some x) :
    (applyResOp r s op).result r = some x := by
  cases op with
  | rep w v e =>
      cases hre : resolveExplicit s w r v e with
      | error msg => simpa [applyResOp, hre] using h
      | ok s1 =>
          simpa [applyResOp, hre] using resolveExplicit_ok_result_some hre h
  | fault e =>
      unfold applyResOp
      exact resolveUsageFault_result_some s r e h

theorem runResOps_result_some (r : Nat) (l : List (ResOp V E)) :
    ∀ (s : GState V E) (x : RequestResult V E), s.result r = some x →
      (runResOps r s l).result r = some x := by
  induction l with
  | nil => intro s x h; exact h
  | cons op t ih =>
      intro s x h
      exact ih _ x (applyResOp_result_some r s op h)

/-- C5: a request's resolution slot is monotonic.  Once it holds some
resolution, no sequence of `resolveExplicit` / `resolveUsageFault` calls can
return it to the unset state — in fact the stored resolution never changes
at all — and a `resolveUsageFault` against an already-resolved request
leaves the whole state untouched. -/
theorem resolution_monotone (r : Nat) (s : GState V E) (x : RequestResult V E)
    (h : s.result r = some x) :
    (∀ l : List (ResOp V E), (runResOps r s l).result r = some x) ∧
      (∀ e, resolveUsageFault s r e = s) := by
  refine ⟨fun l => runResOps_result_some r l s x h, fun e => ?_⟩
  exact resolveUsageFault_of_some s r e h

/-- Witness for C5 at a concrete resolved request. -/
theorem resolution_monotone_witness :
    exReported.result 0 = some (RequestResult.mk (some 5) none) ∧
      ((∀ l : List (ResOp Nat Nat),
          (runResOps 0 exReported l).result 0 =
            some (RequestResult.mk (some 5) none)) ∧
        (∀ e, resolveUsageFault exReported 0 e = exReported)) :=
  ⟨rfl, resolution_monotone 0 exReported (RequestResult.mk (some 5) none) rfl⟩

/-- C6 (amended): a `resolveExplicit` by the responsible worker against a
request already resolved with a usage fault is silently ignored — it does
not panic and it leaves the state (in particular the stored usage-fault
resolution) completely unchanged. -/
theorem explicit_after_fault_ignored (s : GState V E) (w r : Nat)
    (v : Option V) (e : Option (WGError E)) (res : RequestResult V E)
    (hresp : s.responsible r = w) (hres : s.result r = some res)
    (hnex : res.IsExplicit = false) :
    resolveExplicit s w r v e = .ok s := by
  unfold resolveExplicit
  rw [if_neg (by rw [hresp]; exact fun hc => hc rfl), hres]
  simp [hnex]

/-- Witness for C6 (amended) at a concrete usage-faulted request. -/
theorem explicit_after_fault_ignored_witness :
    exFaulted.responsible 0 = 0 ∧
      exFaulted.result 0 =
        some (RequestResult.mk none (some (WGError.selfDependency [0]))) ∧
      (RequestResult.mk (none : Option Nat)
          (some (WGError.selfDependency [0])) : RequestResult Nat Nat).IsExplicit
        = false ∧
      resolveExplicit exFaulted 0 0 (some 7) none = .ok exFaulted :=
  ⟨rfl, rfl, rfl,
    explicit_after_fault_ignored exFaulted 0 0 (some 7) none _ rfl rfl rfl⟩

/-- Counterexample to C6 as stated: with request `0` resolved as a usage
fault, a subsequent `resolveExplicit (42, nil)` by the responsible worker
returns without changing anything — afterwards the stored resolution is
still the fault, not the explicit pair the claim promises. -/
theorem explicit_supersedes_fault_cex :
    exFaulted.responsible 0 = 0 ∧
      exFaulted.result 0 =
        some (RequestResult.mk none (some (WGError.selfDependency [0]))) ∧
      resolveExplicit exFaulted 0 0 (some 42) none = .ok exFaulted ∧
      exFaulted.result 0 ≠ some (RequestResult.mk (some 42) none) :=
  ⟨rfl, rfl, rfl, by decide⟩

/-- C10: reporting a value that erases to a nil interface (modelled by
`none`) on an unresolved request, by the responsible worker, panics with
"explicit resolution with nil value" instead of resolving the request. -/
theorem report_nil_value_panics (s : GState V E) (w r : Nat)
    (e : Option (WGError E)) (hresp : s.responsible r = w)
    (hun : s.result r = none) :
    resolveExplicit s w r none e =
      .error "explicit resolution with nil value" := by
  unfold resolveExplicit
  rw [if_neg (by rw [hresp]; exact fun hc => hc rfl), hun]

/-- Witness for C10 at a concrete unresolved request. -/
theorem report_nil_value_panics_witness :
    exOneReq.responsible 0 = 0 ∧ exOneReq.result 0 = none ∧
      resolveExplicit exOneReq 0 0 (none : Option Nat) none =
        .error "explicit resolution with nil value" :=
  ⟨rfl, rfl, report_nil_value_panics exOneReq 0 0 none rfl rfl⟩

/-- C9 (amended): `resolveExplicit` panics if and only if the stored
responsible worker differs from the resolving worker, or an explicit
resolution is already present (message "request resolved multiple times"),
or the request is unresolved and the supplied value erases to nil; when the
caller is the responsible worker, no explicit resolution exists, and the
value is non-nil, no panic branch is reachable (the call either stores the
result or is silently ignored after a usage fault). -/
theorem resolveExplicit_panic_charn (s : GState V E) (w r : Nat)
    (v : Option V) (e : Option (WGError E)) :
    ((∃ msg, resolveExplicit s w r v e = .error msg) ↔
      (w ≠ s.responsible r ∨
        (∃ res, s.result r = some res ∧ res.IsExplicit = true) ∨
        (s.result r = none ∧ v = none))) ∧
      (w = s.responsible r →
        ∀ res, s.result r = some res → res.IsExplicit = true →
          resolveExplicit s w r v e = .error "request resolved multiple times") ∧
      (w = s.responsible r → s.result r = none → ∀ x, v = some x →
        resolveExplicit s w r v e =
          .ok (setResult s r (some (RequestResult.mk (some x) e)))) := by
  by_cases hw : w ≠ s.responsible r
  · refine ⟨?_, ?_, ?_⟩
    · unfold resolveExplicit
      rw [if_pos hw]
      exact ⟨fun _ => Or.inl hw, fun _ => ⟨_, rfl⟩⟩
    · intro hweq; exact absurd hweq hw
    · intro hweq; exact absurd hweq hw
  · push_neg at hw
    cases hres : s.result r with
    | some res =>
        refine ⟨?_, ?_, ?_⟩
        · unfold resolveExplicit
          rw [if_neg (by rw [← hw]; exact fun hc => hc rfl), hres]
          dsimp only
          by_cases hex : res.IsExplicit = true
          · rw [if_pos hex]
            exact ⟨fun _ => Or.inr (Or.inl ⟨res, rfl, hex⟩), fun _ => ⟨_, rfl⟩⟩
          · rw [if_neg hex]
            constructor
            · rintro ⟨msg, hmsg⟩
              cases hmsg
            · rintro (hc | ⟨res2, hres2, hex2⟩ | ⟨hn, _⟩)
              · exact absurd hw hc
              · have h12 := Option.some.inj hres2
                subst h12
                exact absurd hex2 hex
              · cases hn
        · intro _ res2 hres2 hex2
          have h12 := Option.some.inj hres2
          subst h12
          unfold resolveExplicit
          rw [if_neg (by rw [← hw]; exact fun hc => hc rfl), hres]
          dsimp only
          rw [if_pos hex2]
        · intro _ hn; cases hn
    | none =>
        refine ⟨?_, ?_, ?_⟩
        · unfold resolveExplicit
          rw [if_neg (by rw [← hw]; exact fun hc => hc rfl), hres]
          dsimp only
          cases hv : v with
          | none =>
              refine ⟨fun _ => Or.inr (Or.inr ⟨rfl, rfl⟩), fun _ => ⟨_, rfl⟩⟩
          | some x =>
              constructor
              · rintro ⟨msg, hmsg⟩
                cases hmsg
              · rintro (hc | ⟨res2, hres2, _⟩ | ⟨_, hveq⟩)
                · exact absurd hw hc
                · cases hres2
                · cases hveq
        · intro _ res2 hres2; cases hres2
        · intro _ _ x hx
          unfold resolveExplicit
          rw [if_neg (by rw [← hw]; exact fun hc => hc rfl), hres]
          dsimp only
          rw [hx]

/-- Witness for C9 (amended) at a concrete request: the responsible worker
stores an explicit result on the unresolved request without panicking. -/
theorem resolveExplicit_panic_charn_witness :
    (((∃ msg, resolveExplicit exOneReq 0 0 (some 9) none = .error msg) ↔
        (0 ≠ exOneReq.responsible 0 ∨
          (∃ res, exOneReq.result 0 = some res ∧ res.IsExplicit = true) ∨
          (exOneReq.result 0 = none ∧ (some 9 : Option Nat) = none))) ∧
      (0 = exOneReq.responsible 0 →
        ∀ res, exOneReq.result 0 = some res → res.IsExplicit = true →
          resolveExplicit exOneReq 0 0 (some 9) none =
            .error "request resolved multiple times") ∧
      (0 = exOneReq.responsible 0 → exOneReq.result 0 = none →
        ∀ x, (some 9 : Option Nat) = some x →
          resolveExplicit exOneReq 0 0 (some 9) none =
            .ok (setResult exOneReq 0 (some (RequestResult.mk (some x) none))))) :=
  resolveExplicit_panic_charn exOneReq 0 0 (some 9) none

/-- Counterexample to C9 as stated: the responsible worker reports a
nil-erasing value on the unresolved request `0`.  Neither of the two panic
conditions named by the claim holds — the caller is the responsible worker
and no explicit resolution exists — yet the call panics (with the nil-value
message), refuting both the claimed "if and only if" and the claimed
unreachability of panics under that precondition. -/
theorem resolveExplicit_panic_iff_cex :
    exOneReq.responsible 0 = 0 ∧ exOneReq.result 0 = none ∧
      resolveExplicit exOneReq 0 0 (none : Option Nat) none =
        .error "explicit resolution with nil value" :=
  ⟨rfl, rfl, rfl⟩

/-- C3 (evaluation at the failing input): worker `0` is responsible for the
unresolved request `0`, but because nothing ever inserted the request into
`responsibleFor`, the drop cleanup `handleDropped` iterates an empty set and
leaves the request unresolved — no `ErrUnresolved` resolution is stored. -/
theorem handleDropped_leaves_undelegated_unresolved :
    exOneReq.responsible 0 = 0 ∧ exOneReq.result 0 = none ∧
      exOneReq.responsibleFor 0 = [] ∧
      (handleDropped exOneReq 0).result 0 = none :=
  ⟨rfl, rfl, rfl, rfl⟩

/-- C4 (evaluation at the failing input): opening a request under worker `0`
does not add it to that worker's `responsibleFor` set, and delegating it to a
new worker re-points `responsible` but does not insert it into the new
worker's `responsibleFor` set either. -/
theorem responsibleFor_never_populated :
    exOneReq.responsible 0 = 0 ∧ exOneReq.responsibleFor 0 = [] ∧
      (NewWorker exOneReq [0]).1.responsible 0 = 1 ∧
      (NewWorker exOneReq [0]).1.responsibleFor 1 = [] :=
  ⟨rfl, rfl, rfl, rfl⟩

/-- C2 (amended): after an explicit report by the responsible worker that
finds the request still unresolved (so the pair is actually stored), the
stored resolution is exactly the reported `(value, error)` pair, it stays
that pair along every later evolution of the system, and every `Await` that
then observes the request resolved returns exactly that pair. -/
theorem report_then_await_observes (s s1 : GState V E) (w r : Nat) (v : V)
    (e : Option (WGError E)) (hr : r < s.numReqs) (hun : s.result r = none)
    (hok : resolveExplicit s w r (some v) e = .ok s1) :
    s1.result r = some (RequestResult.mk (some v) e) ∧
      ∀ s2, Evolves s1 s2 →
        s2.result r = some (RequestResult.mk (some v) e) ∧
        ∀ w2 fuel, s2.awaiting w2 = none →
          promiseAwait s2 w2 r fuel =
            .returned (RequestResult.mk (some v) e) s2 := by
  have hstore : s1.result r = some (RequestResult.mk (some v) e) := by
    rcases (resolveExplicit_ok_inv hok).2 with ⟨res, hsome, _, rfl⟩ |
      ⟨_, x, hx, rfl⟩
    · rw [hun] at hsome; cases hsome
    · have hx2 := Option.some.inj hx
      subst hx2
      simp
  refine ⟨hstore, fun s2 hev => ?_⟩
  have hr1 : r < s1.numReqs := by
    rw [resolveExplicit_ok_numReqs hok]; exact hr
  rcases Evolves_result_some hev r _ hr1 hstore with ⟨hr2, hres2⟩
  exact ⟨hres2, fun w2 fuel hw2 => promiseAwait_resolved s2 w2 r fuel hw2 hres2⟩

/-- Witness for C2 (amended): `main` reports `(5, nil)` on its own fresh
request; the stored resolution is `(5, nil)` and an immediate `Await`
returns it. -/
theorem report_then_await_observes_witness :
    0 < exOneReq.numReqs ∧ exOneReq.result 0 = none ∧
      resolveExplicit exOneReq 0 0 (some 5) none = .ok exReported ∧
      (exReported.result 0 = some (RequestResult.mk (some 5) none) ∧
        ∀ s2, Evolves exReported s2 →
          s2.result 0 = some (RequestResult.mk (some 5) none) ∧
          ∀ w2 fuel, s2.awaiting w2 = none →
            promiseAwait s2 w2 0 fuel =
              .returned (RequestResult.mk (some 5) none) s2) :=
  ⟨by decide, rfl, rfl,
    report_then_await_observes exOneReq exReported 0 0 5 none (by decide)
      rfl rfl⟩

/-- Counterexample to C2 as stated: `main` first awaits its own request
(resolving it with a self-dependency usage fault), then reports `(42, nil)`.
The sequence ends with an explicit report by the responsible worker, yet an
`Await` that observes the request resolved returns the fault, not
`(42, nil)` — because `resolveExplicit` silently ignores the report after a
usage fault. -/
theorem await_after_ignored_report_cex :
    promiseAwait exOneReq 0 0 2 =
      .returned (RequestResult.mk none (some (WGError.selfDependency [0])))
        exFaulted ∧
      resolveExplicit exFaulted 0 0 (some 42) none = .ok exFaulted ∧
      (promiseAwait exFaulted 0 0 2).resOf =
        some (RequestResult.mk none (some (WGError.selfDependency [0]))) ∧
      (promiseAwait exFaulted 0 0 2).resOf ≠
        some (RequestResult.mk (some 42) none) :=
  ⟨rfl, rfl, rfl, by decide⟩

/-- C1 (amended): when `Await` is called on an unresolved request whose
worker/request chain leads back to the caller (as certified by the
collect-mode walk), it returns the shared `ErrSelfDependency` usage fault,
whose `RequestIDs` list contains the request's own id; every request visited
by the collecting walk that was still unresolved is resolved with that same
fault, while already-resolved visited requests keep their prior resolution;
and in the direct case — the caller itself responsible for the request — the
collected id list is exactly the one-element list of that request's id. -/
theorem await_cycle_reports_and_faults (s : GState V E) (W R fuel : Nat)
    (l : List Nat)
    (hA : s.awaiting W = none) (hR : s.result R = none)
    (hD : detectSelfDependency (setAwaiting s W (some R)) R W true fuel =
      some (true, l)) :
    R ∈ l ∧
      promiseAwait s W R fuel =
        .returned (newUsageFaultResult (WGError.selfDependency l))
          (setAwaiting
            (faultEach (setAwaiting s W (some R))
              (fun _ => WGError.selfDependency l) l) W none) ∧
      (∀ q, q ∈ l → s.result q = none →
        (faultEach (setAwaiting s W (some R))
            (fun _ => WGError.selfDependency l) l).result q =
          some (newUsageFaultResult (WGError.selfDependency l))) ∧
      (∀ q, s.result q ≠ none →
        (faultEach (setAwaiting s W (some R))
            (fun _ => WGError.selfDependency l) l).result q = s.result q) ∧
      (s.responsible R = W → l = [R]) := by
  have hmem : R ∈ l := by
    rcases detectSelfDependency_head hD with ⟨t, rfl⟩
    exact List.mem_cons_self _ _
  refine ⟨hmem, ?_, ?_, ?_, ?_⟩
  · -- the computed outcome of the awaiting call
    have hmode := detectSelfDependency_fst_mode (setAwaiting s W (some R)) R W
      fuel
    rw [hD] at hmode
    have hfr : (faultEach (setAwaiting s W (some R))
        (fun _ => WGError.selfDependency l) l).result R =
        some (newUsageFaultResult (WGError.selfDependency l)) :=
      faultEach_result_mem _ _ _ R hmem
        (show (setAwaiting s W (some R)).result R = none from hR)
    unfold promiseAwait
    rw [hA, hR]
    show awaitSlow s W R fuel = _
    unfold awaitSlow
    rw [hA]
    cases hdf : detectSelfDependency (setAwaiting s W (some R)) R W false fuel
      with
    | none => rw [hdf] at hmode; cases hmode
    | some p =>
        rw [hdf] at hmode
        obtain ⟨b, l2⟩ := p
        have hb : b = true := by simpa using hmode
        subst hb
        rw [if_neg (by simp)]
        dsimp only
        rw [hD]
        dsimp only
        rw [hfr]
  · intro q hq hqn
    exact faultEach_result_mem _ _ _ q hq (by simpa using hqn)
  · intro q hqn
    cases hsx : s.result q with
    | none => exact absurd hsx hqn
    | some x =>
        rw [faultEach_result_some _ _ _ q x (by simpa using hsx)]
  · intro hresp
    unfold detectSelfDependency at hD
    obtain ⟨f, rfl⟩ : ∃ f, fuel = f + 1 := by
      cases fuel with
      | zero => exact absurd hD (by simp [detectLoop])
      | succ f => exact ⟨f, rfl⟩
    unfold detectLoop at hD
    rw [if_pos (show (setAwaiting s W (some R)).responsible R = W from hresp)]
      at hD
    have := (Prod.mk.injEq _ _ _ _).mp (Option.some.inj hD)
    simpa using this.2.symm

theorem OnceStep_preserves_OnceInv {σ σ2 : OnceSys V E} (hinv : OnceInv σ)
    (hstep : OnceStep σ σ2) : OnceInv σ2 := by
  obtain ⟨h1, h2⟩ := hinv
  cases hstep with
  | graph g2 hstep hresp =>
      refine ⟨h1, ?_⟩
      cases hpr : σ.o.promise with
      | none => rw [hpr] at h2; exact h2
      | some r =>
          rw [hpr] at h2
          obtain ⟨hlt, hret, hpend⟩ := h2
          rcases GStep_mono_result hstep with ⟨_, hmr, hres⟩
          refine ⟨by dsimp only; omega, fun x hx => hres r x hlt (hret x hx),
            fun w hw => ?_⟩
          rw [hresp r hpr]
          exact hpend w hw
  | doEnterFirst caller h =>
      rw [h] at h2
      dsimp only at h2
      rw [h] at h1
      simp only [Option.isSome_none, Bool.false_eq_true, if_false] at h1
      refine ⟨by simp only [Option.isSome_some, if_true]; omega, ?_⟩
      refine ⟨?_, ?_, ?_⟩
      · rw [NewWorker_numReqs, newRequestInner_numReqs, newRequestInner_snd]
        omega
      · rw [h2]
        intro x hx
        cases hx
      · intro w hw
        have hw2 := Option.some.inj hw
        rw [NewWorker_responsible, if_pos (List.mem_singleton.mpr rfl), ← hw2]
        rfl
  | doEnterLater h => exact ⟨h1, h2⟩
  | taskRun w v e r hp hr =>
      rw [hp, hr] at h1
      rw [hr] at h2
      dsimp only at h2
      obtain ⟨hlt, hret, hpend⟩ := h2
      simp only [Option.isSome_some, if_true] at h1
      unfold OnceInv
      dsimp only
      rw [hr]
      dsimp only
      refine ⟨by simp only [Option.isSome_none, Option.isSome_some, if_true,
        Bool.false_eq_true, if_false]; omega, ?_, ?_, ?_⟩
      · cases hre : resolveExplicit σ.g w r v e with
        | error msg => simpa [hre, Except.toOption] using hlt
        | ok s1 =>
            simpa [hre, Except.toOption, resolveExplicit_ok_numReqs hre]
              using hlt
      · intro x hx
        have hx2 := hret x hx
        cases hre : resolveExplicit σ.g w r v e with
        | error msg => simpa [hre, Except.toOption] using hx2
        | ok s1 =>
            simpa [hre, Except.toOption]
              using resolveExplicit_ok_result_some hre hx2
      · intro w2 hw2
        cases hw2
  | doReturn caller r x hr hx hc =>
      rw [hr] at h2
      dsimp only at h2
      obtain ⟨hlt, hret, hpend⟩ := h2
      unfold OnceInv
      dsimp only
      rw [hr]
      dsimp only
      refine ⟨by rw [hr] at h1; exact h1, hlt, ?_, hpend⟩
      intro y hy
      cases List.mem_cons.mp hy with
      | inl hyx => rw [hyx]; exact hx
      | inr hyt => exact hret y hyt

/-- All reachable `Once`-system states satisfy the invariant. -/
theorem OnceReach_OnceInv {g0 : GState V E} {σ : OnceSys V E}
    (h : OnceReach g0 σ) : OnceInv σ := by
  induction h with
  | refl => exact ⟨by simp, by simp⟩
  | tail hstep hprev ih => exact OnceStep_preserves_OnceInv ih hprev

/-- C7: across any sequence of `Once.Do` calls (with arbitrary interleaved
library activity), the function is invoked at most once — only by the task
spawned by the first call, whose fresh worker is the responsible worker of
the `Once`'s single underlying request — and every completed `Do` call
returns the same outcome, namely the stored resolution of that request. -/
theorem once_do_at_most_once (g0 : GState V E) (σ : OnceSys V E)
    (h : OnceReach g0 σ) :
    σ.o.invocations ≤ 1 ∧
      (∀ x, x ∈ σ.returns → ∀ y, y ∈ σ.returns → x = y) ∧
      (∀ x, x ∈ σ.returns →
        ∃ r, σ.o.promise = some r ∧ σ.g.result r = some x) ∧
      (∀ w, σ.o.pending = some w →
        ∃ r, σ.o.promise = some r ∧ σ.g.responsible r = w) := by
  obtain ⟨h1, h2⟩ := OnceReach_OnceInv h
  cases hpr : σ.o.promise with
  | none =>
      rw [hpr] at h1 h2
      simp only [Option.isSome_none, Bool.false_eq_true, if_false] at h1
      dsimp only at h2
      refine ⟨by omega, ?_, ?_, ?_⟩
      · intro x hx; rw [h2] at hx; cases hx
      · intro x hx; rw [h2] at hx; cases hx
      · intro w hw
        by_contra hc
        rw [hw] at h1
        simp at h1
  | some r =>
      rw [hpr] at h1 h2
      simp only [Option.isSome_some, if_true] at h1
      dsimp only at h2
      obtain ⟨hlt, hret, hpend⟩ := h2
      refine ⟨by omega, ?_, ?_, ?_⟩
      · intro x hx y hy
        exact Option.some.inj ((hret x hx).symm.trans (hret y hy))
      · intro x hx
        exact ⟨r, rfl, hret x hx⟩
      · intro w hw
        exact ⟨r, rfl, hpend w hw⟩

/-- Witness for C7 on a concrete three-event run of the `Once` system. -/
theorem once_do_at_most_once_witness :
    OnceReach onceG0 onceSys3 ∧
      (onceSys3.o.invocations ≤ 1 ∧
        (∀ x, x ∈ onceSys3.returns → ∀ y, y ∈ onceSys3.returns → x = y) ∧
        (∀ x, x ∈ onceSys3.returns →
          ∃ r, onceSys3.o.promise = some r ∧ onceSys3.g.result r = some x) ∧
        (∀ w, onceSys3.o.pending = some w →
          ∃ r, onceSys3.o.promise = some r ∧
            onceSys3.g.responsible r = w)) := by
  have s1 : OnceStep onceSys0 onceSys1 := OnceStep.doEnterFirst onceSys0 0 rfl
  have s2 : OnceStep onceSys1 onceSys2 :=
    OnceStep.taskRun onceSys1 1 (some 3) none 0 rfl rfl
  have s3 : OnceStep onceSys2 onceSys3 :=
    OnceStep.doReturn onceSys2 0 0 (RequestResult.mk (some 3) none) rfl rfl rfl
  have hreach : OnceReach onceG0 onceSys3 :=
    Relation.ReflTransGen.tail (Relation.ReflTransGen.tail
      (Relation.ReflTransGen.tail Relation.ReflTransGen.refl s1) s2) s3
  exact ⟨hreach, once_do_at_most_once onceG0 onceSys3 hreach⟩

/-- Witness for C1 (amended) on the direct self-dependency of the concrete
one-request state: `main` awaits its own request. -/
theorem await_cycle_reports_and_faults_witness :
    exOneReq.awaiting 0 = none ∧ exOneReq.result 0 = none ∧
      detectSelfDependency (setAwaiting exOneReq 0 (some 0)) 0 0 true 2 =
        some (true, [0]) ∧
      ((0 : Nat) ∈ [(0 : Nat)] ∧
        promiseAwait exOneReq 0 0 2 =
          .returned (newUsageFaultResult (WGError.selfDependency [0]))
            (setAwaiting
              (faultEach (setAwaiting exOneReq 0 (some 0))
                (fun _ => WGError.selfDependency [0]) [0]) 0 none) ∧
        (∀ q, q ∈ [(0 : Nat)] → exOneReq.result q = none →
          (faultEach (setAwaiting exOneReq 0 (some 0))
              (fun _ => WGError.selfDependency [0]) [0]).result q =
            some (newUsageFaultResult (WGError.selfDependency [0]))) ∧
        (∀ q, exOneReq.result q ≠ none →
          (faultEach (setAwaiting exOneReq 0 (some 0))
              (fun _ => WGError.selfDependency [0]) [0]).result q =
            exOneReq.result q) ∧
        (exOneReq.responsible 0 = 0 → [(0 : Nat)] = [0])) :=
  ⟨rfl, rfl, rfl,
    await_cycle_reports_and_faults exOneReq 0 0 2 [0] rfl rfl rfl⟩

/-- Counterexample to C1 as stated: a three-worker replay in which worker `1`
blocks awaiting request `0`, worker `2` explicitly resolves request `0` with
`(7, nil)` before worker `1` wakes, worker `2` then blocks awaiting request
`1`, and worker `0`'s `Await` of request `2` closes the chain.  The
collecting walk visits requests `2`, `0` and `1`, but visited request `0`
keeps its explicit resolution — it is not resolved as a usage fault carrying
the shared `ErrSelfDependency`, contrary to the claim. -/
theorem await_collect_keeps_explicit_cex :
    promiseAwait exThree 1 0 4 = .blocked exThreeB1 ∧
      resolveExplicit exThreeB1 2 0 (some 7) none = .ok exThreeRep ∧
      promiseAwait exThreeRep 2 1 4 = .blocked exThreeB2 ∧
      detectSelfDependency (setAwaiting exThreeB2 0 (some 2)) 2 0 true 4 =
        some (true, [2, 0, 1]) ∧
      promiseAwait exThreeB2 0 2 4 =
        .returned
          (RequestResult.mk none (some (WGError.selfDependency [2, 0, 1])))
          exThreePost ∧
      exThreePost.result 0 = some (RequestResult.mk (some 7) none) ∧
      exThreePost.result 0 ≠
        some (RequestResult.mk none (some (WGError.selfDependency [2, 0, 1]))) :=
  ⟨rfl, rfl, rfl, rfl, rfl, rfl, by decide⟩

/-- Witness for C8 on the concrete reachable one-request state. -/
theorem detect_terminates_bounded_witness :
    Reach exOneReq ∧ 0 < exOneReq.numWorkers ∧ 0 < exOneReq.numReqs ∧
      exOneReq.awaiting 0 = none ∧
      (∃ b l, detectSelfDependency (setAwaiting exOneReq 0 (some 0)) 0 0 true
          (blockedCount (setAwaiting exOneReq 0 (some 0)) + 1) = some (b, l) ∧
        l.length - 1 ≤ blockedCount (setAwaiting exOneReq 0 (some 0))) := by
  have t1 : GStep (GState.init : GState Nat Nat)
      (NewWorker (GState.init : GState Nat Nat) []).1 :=
    GStep.newWorker _ [] (by simp)
  have t2 : GStep (NewWorker (GState.init : GState Nat Nat) []).1 exOneReq :=
    GStep.newRequest _ 0 (by decide)
  have hreach : Reach exOneReq :=
    Relation.ReflTransGen.tail (Relation.ReflTransGen.tail
      Relation.ReflTransGen.refl t1) t2
  exact ⟨hreach, by decide, by decide, rfl,
    detect_terminates_bounded exOneReq hreach 0 0 (by decide) (by decide) rfl⟩
